import Mathlib

/-!
# grpcui-proxy: method selection and connection establishment

A shallow embedding of `grpcui_proxy.go` (and of the part of `main.go` that
calls it), followed by theorems about it.

Conventions of the embedding.

* A Go result pair `(v, err)` whose code paths are always `(nil, err)` or
  `(v, nil)` is an `Except GoError _`.
* A Go `map` is the list of its entries, in whatever order an iteration would
  visit them; keys are pairwise distinct.  An entry of `map[string]*svcConfig`
  is held by value: every key owns its own, non-nil `svcConfig`.
* External collaborators (`grpcurl`, `grpc`, the reflection client) are
  parameters: the embedding is told what they return.
* Text written to standard error is threaded through as a list of strings.
-/

namespace GrpcuiProxy

deriving instance DecidableEq for Except

/-! ## Errors and descriptors -/

/-- A Go `error`, identified by the text of its `Error()` method. -/
structure GoError where
  message : String
deriving DecidableEq, Repr

/-- The part of `desc.MethodDescriptor` the program reads: the fully-qualified
name of the parent service and the method's own name (`GetName`). -/
structure MethodDescriptor where
  service : String
  name : String
deriving DecidableEq, Repr

/-- The part of `desc.ServiceDescriptor` the program reads: the
fully-qualified name and the methods, in the order `GetMethods` returns them. -/
structure ServiceDescriptor where
  fullName : String
  methods : List MethodDescriptor
deriving DecidableEq, Repr

/-- A `desc.Descriptor` as returned by `FindSymbol`: a service descriptor, or
a descriptor of another kind, of which only the fully-qualified name and the
Go type (the `%T` of the error text) are read. -/
inductive Descriptor where
  | service (sd : ServiceDescriptor)
  | other (fullName : String) (goType : String)
deriving DecidableEq, Repr

/-- A `grpcurl.DescriptorSource`: what `ListServices` returns and what
`FindSymbol` returns for each name. -/
structure DescriptorSource where
  ListServices : Except GoError (List String)
  FindSymbol : String → Except GoError Descriptor

/-! ## Strings: `sort.Strings` and `strings.Join` -/

/-- The bytes of a Go string (UTF-8). -/
def utf8Bytes (s : String) : List Nat :=
  (s.data.flatMap String.utf8EncodeChar).map UInt8.toNat

/-- Go's `<=` on strings: lexicographic on bytes. -/
def stringsLE (a b : String) : Prop := utf8Bytes a ≤ utf8Bytes b

instance stringsLE.decidable : DecidableRel stringsLE :=
  fun a b => inferInstanceAs (Decidable (utf8Bytes a ≤ utf8Bytes b))

instance stringsLE.isTotal : IsTotal String stringsLE :=
  ⟨fun a b => le_total (utf8Bytes a) (utf8Bytes b)⟩

instance stringsLE.isTrans : IsTrans String stringsLE :=
  ⟨fun _ _ _ h1 h2 => @le_trans (List Nat) _ _ _ _ h1 h2⟩

/-- The list `sort.Strings` leaves behind: the same strings in increasing order. -/
def sortStrings (l : List String) : List String :=
  List.insertionSort stringsLE l

/-- The text `strings.Join(names, ", ")`. -/
def joinComma (names : List String) : String :=
  ", ".intercalate names

/-! ## The inclusion policy -/

/-- The Go `svcConfig`; `includeMethods` lists the keys of the
`map[string]struct{}`. -/
structure svcConfig where
  includeService : Bool
  includeMethods : List String
deriving DecidableEq, Repr

/-- The Go `map[string]*svcConfig`, as its list of entries. -/
abbrev Configs := List (String × svcConfig)

/-- The Go `configs[svc]`: the entry of `svc`, `none` for Go's `nil`. -/
def mapLookup (configs : Configs) (svc : String) : Option svcConfig :=
  List.lookup svc configs

/-- The Go `delete(configs, svc)`. -/
def mapDelete (configs : Configs) (svc : String) : Configs :=
  configs.filter (fun e => e.1 != svc)

/-- The Go `delete(cfg.includeMethods, name)`. -/
def setDelete (names : List String) (name : String) : List String :=
  names.filter (fun m => m != name)

/-! ## `warn` and `getMethods` -/

/-- The text `warn` writes to standard error for an already formatted message. -/
def warn (msg : String) : String :=
  "Warning: " ++ msg ++ "\n"

/-- What a call of `getMethods` leaves behind: the returned pair and the text
written to standard error. -/
structure Outcome where
  result : Except GoError (List MethodDescriptor)
  stderr : List String
deriving DecidableEq

/-- The reflection service names `getMethods` skips. -/
def isReflectionService (svc : String) : Bool :=
  svc == "grpc.reflection.v1alpha.ServerReflection" || svc == "grpc.reflection.v1.ServerReflection"

/-- The inner loop of `getMethods`, `for _, md := range sd.GetMethods()`, for
the service `svc` whose entry is `cfg` (`none` for a nil `cfg`).  It returns
the entry as the loop leaves it, the accumulated methods and standard error. -/
def getMethods.methodLoop (svc : String) :
    Option svcConfig → List MethodDescriptor → List MethodDescriptor → List String →
    Option svcConfig × List MethodDescriptor × List String
  | cfg, [], descs, stderr => (cfg, descs, stderr)
  | none, md :: mds, descs, stderr =>
    getMethods.methodLoop svc none mds (descs ++ [md]) stderr
  | some cfg, md :: mds, descs, stderr =>
    let found : Bool := decide (md.name ∈ cfg.includeMethods)
    let cfg1 : svcConfig := ⟨cfg.includeService, setDelete cfg.includeMethods md.name⟩
    let stderr1 :=
      if found && cfg.includeService then
        stderr ++ [warn ("Service " ++ svc ++ " already configured, so -method " ++ md.name
          ++ " is unnecessary")]
      else stderr
    let descs1 := if found || cfg.includeService then descs ++ [md] else descs
    getMethods.methodLoop svc (some cfg1) mds descs1 stderr1

/-- The outer loop of `getMethods`, `for _, svc := range allServices`, and the
code after it, from the state `(configs, descs, stderr)`. -/
def getMethods.serviceLoop (source : DescriptorSource) :
    List String → Configs → List MethodDescriptor → List String → Outcome
  | [], configs, descs, stderr =>
    if configs.length > 0 then
      ⟨.error ⟨"configured services not found: " ++
        joinComma (sortStrings (configs.map Prod.fst))⟩, stderr⟩
    else ⟨.ok descs, stderr⟩
  | svc :: rest, configs, descs, stderr =>
    if isReflectionService svc then
      getMethods.serviceLoop source rest configs descs stderr
    else
      match source.FindSymbol svc with
      | .error err => ⟨.error err, stderr⟩
      | .ok (.other fullName goType) =>
        ⟨.error ⟨fullName ++ " should be a service descriptor but instead is a " ++ goType⟩,
          stderr⟩
      | .ok (.service sd) =>
        let cfg := mapLookup configs svc
        if cfg.isNone && configs.length != 0 then
          getMethods.serviceLoop source rest configs descs stderr
        else
          match getMethods.methodLoop svc cfg sd.methods descs stderr with
          | (some cfg1, descs1, stderr1) =>
            if cfg1.includeMethods.length > 0 then
              ⟨.error ⟨"configured methods not found: " ++
                joinComma (sortStrings (cfg1.includeMethods.map (fun m => svc ++ "/" ++ m)))⟩,
                stderr1⟩
            else getMethods.serviceLoop source rest (mapDelete configs svc) descs1 stderr1
          | (none, descs1, stderr1) =>
            getMethods.serviceLoop source rest (mapDelete configs svc) descs1 stderr1

/-- The Go `getMethods(source, configs)`. -/
def getMethods (source : DescriptorSource) (configs : Configs) : Outcome :=
  match source.ListServices with
  | .error err => ⟨.error err, []⟩
  | .ok allServices => getMethods.serviceLoop source allServices configs [] []

/-! ## Error-tracking transport -/

/-- A `net.Conn` handle. -/
abbrev NetConn := Nat

/-- A `credentials.AuthInfo` handle. -/
abbrev AuthInfo := Nat

/-- A `*grpc.ClientConn` handle. -/
abbrev ClientConn := Nat

/-- A `credentials.TransportCredentials` value, by name. -/
abbrev TransportCredentials := String

/-- The Go `errTrackingDialer`.  The wrapped `net.Dialer` is external: each
call is told what `DialContext` of the wrapped dialer returned.  The mutex
makes the update of `lastErr` atomic, so calls act one after the other. -/
structure errTrackingDialer where
  network : String
  lastErr : Option GoError
deriving DecidableEq, Repr

/-- The Go `(*errTrackingDialer).dial`, given the pair `(conn, err)` the
wrapped dialer returned: the returned pair and the dialer afterwards. -/
def errTrackingDialer.dial (c : errTrackingDialer) (underlying : Option NetConn × Option GoError) :
    (Option NetConn × Option GoError) × errTrackingDialer :=
  match underlying with
  | (conn, some err) => ((conn, some err), ⟨c.network, some err⟩)
  | (conn, none) => ((conn, none), c)

/-- The Go `(*errTrackingDialer).err`. -/
def errTrackingDialer.err (c : errTrackingDialer) : Option GoError :=
  c.lastErr

/-- The Go `errTrackingCreds`; `creds` is the embedded `TransportCredentials`
(`none` in the zero value). -/
structure errTrackingCreds where
  creds : Option TransportCredentials
  lastErr : Option GoError
deriving DecidableEq, Repr

/-- The Go `(*errTrackingCreds).ClientHandshake`, given the triple
`(conn, auth, err)` the embedded credentials returned. -/
def errTrackingCreds.ClientHandshake (c : errTrackingCreds)
    (underlying : Option NetConn × Option AuthInfo × Option GoError) :
    (Option NetConn × Option AuthInfo × Option GoError) × errTrackingCreds :=
  match underlying with
  | (conn, auth, some err) => ((conn, auth, some err), ⟨c.creds, some err⟩)
  | (conn, auth, none) => ((conn, auth, none), c)

/-- The Go `(*errTrackingCreds).err`. -/
def errTrackingCreds.err (c : errTrackingCreds) : Option GoError :=
  c.lastErr

/-- A sequence of calls of `dial` on one `errTrackingDialer`, each with what
the wrapped dialer returned: the pairs returned, in order, and the dialer
afterwards. -/
def errTrackingDialer.dialMany (c : errTrackingDialer) :
    List (Option NetConn × Option GoError) →
    List (Option NetConn × Option GoError) × errTrackingDialer
  | [] => ([], c)
  | u :: us =>
    let r := c.dial u
    let rest := errTrackingDialer.dialMany r.2 us
    (r.1 :: rest.1, rest.2)

/-- A sequence of calls of `ClientHandshake` on one `errTrackingCreds`. -/
def errTrackingCreds.handshakeMany (c : errTrackingCreds) :
    List (Option NetConn × Option AuthInfo × Option GoError) →
    List (Option NetConn × Option AuthInfo × Option GoError) × errTrackingCreds
  | [] => ([], c)
  | u :: us =>
    let r := c.ClientHandshake u
    let rest := errTrackingCreds.handshakeMany r.2 us
    (r.1 :: rest.1, rest.2)

/-! ## `dial` -/

/-- One call `grpc.DialContext` makes while it connects: of the context dialer
it was given, or of `ClientHandshake` of the transport credentials it was
given, each with what the wrapped primitive returns. -/
inductive Attempt where
  | connect (underlying : Option NetConn × Option GoError)
  | handshake (underlying : Option NetConn × Option AuthInfo × Option GoError)
deriving DecidableEq, Repr

/-- A run of `grpc.DialContext` with `grpc.WithBlock`: the calls it makes, in
order, and what it returns. -/
structure DialContextRun where
  attempts : List Attempt
  result : Except GoError ClientConn

/-- The external collaborators of `dial` and `NewGrpcuiProxyOption`:
`grpcurl.BlockingDial` and `grpc.DialContext` by network, address and
credentials; the descriptor source reflection gives over a connection; and
`grpcurl.GetAllFiles` of that source, as the names of the files. -/
structure World where
  BlockingDial : String → String → Option TransportCredentials → Except GoError ClientConn
  DialContext : String → String → Option TransportCredentials → DialContextRun
  DescriptorSourceFromServer : ClientConn → DescriptorSource
  GetAllFiles : ClientConn → Except GoError (List String)

/-- The effect of the calls of a `grpc.DialContext` run on the two trackers
`dial` installed.  Connects go through `dialer.dial`.  Handshakes go through
`errCreds.ClientHandshake` when `dial` was given credentials; with nil
credentials `dial` installs insecure credentials and `errCreds` sees nothing. -/
def dial.observe (wrapped : Bool) :
    List Attempt → errTrackingDialer × errTrackingCreds → errTrackingDialer × errTrackingCreds
  | [], trackers => trackers
  | .connect u :: rest, (dialer, errCreds) =>
    dial.observe wrapped rest ((dialer.dial u).2, errCreds)
  | .handshake u :: rest, (dialer, errCreds) =>
    if wrapped then dial.observe wrapped rest (dialer, (errCreds.ClientHandshake u).2)
    else dial.observe wrapped rest (dialer, errCreds)

/-- The Go `dial(ctx, network, addr, creds, failFast)`, called without
further dial options. -/
def dial (w : World) (network addr : String) (creds : Option TransportCredentials)
    (failFast : Bool) : Except GoError ClientConn :=
  if failFast then
    w.BlockingDial network addr creds
  else
    let dialer : errTrackingDialer := ⟨network, none⟩
    let errCreds : errTrackingCreds :=
      match creds with
      | none => ⟨none, none⟩
      | some tc => ⟨some tc, none⟩
    let run := w.DialContext network addr creds
    let trackers := dial.observe creds.isSome run.attempts (dialer, errCreds)
    match run.result with
    | .ok cc => .ok cc
    | .error err =>
      match trackers.2.err with
      | some hsErr => .error hsErr
      | none =>
        match trackers.1.err with
        | some dialErr => .error dialErr
        | none => .error err

/-! ## `NewGrpcuiProxyOption` and its caller -/

/-- The Go `GrpcuiProxyOption`. -/
structure GrpcuiProxyOption where
  endpoint : String
  cc : ClientConn
  methods : List MethodDescriptor
  files : List String
deriving DecidableEq, Repr

/-- What a call of `NewGrpcuiProxyOption` leaves behind: the returned pair,
the connections that are open when it returns, and standard error. -/
structure NewOutcome where
  result : Except GoError GrpcuiProxyOption
  openConns : List ClientConn
  stderr : List String
deriving DecidableEq

/-- The Go `NewGrpcuiProxyOption(ctx, endpoint)`, started with the
connections `openConns` open.  A dial that succeeds opens its connection;
only `Close` takes a connection out of the open ones, and the function makes
no such call. -/
def NewGrpcuiProxyOption (w : World) (endpoint : String) (openConns : List ClientConn) :
    NewOutcome :=
  match dial w "tcp" endpoint none true with
  | .error err => ⟨.error err, openConns, []⟩
  | .ok cc =>
    let openConns1 := cc :: openConns
    let descSource := w.DescriptorSourceFromServer cc
    let got := getMethods descSource []
    match got.result with
    | .error err => ⟨.error err, openConns1, got.stderr⟩
    | .ok methods =>
      match w.GetAllFiles cc with
      | .error err => ⟨.error err, openConns1, got.stderr⟩
      | .ok allFiles => ⟨.ok ⟨endpoint, cc, methods, allFiles⟩, openConns1, got.stderr⟩

/-- The Go `(*grpc.ClientConn).Close`, on the open connections. -/
def ClientConn.Close (cc : ClientConn) (openConns : List ClientConn) : List ClientConn :=
  openConns.filter (fun c => c != cc)

/-- What `grpcuiHandler` leaves behind: the status and template of the page
it renders, the error text it shows, and the connections still open. -/
structure HandlerOutcome where
  status : Nat
  template : String
  error : Option String
  openConns : List ClientConn
deriving DecidableEq, Repr

/-- The Go `grpcuiHandler`, for the query parameter `endpoint`; the rendering
of the web form is external. -/
def grpcuiHandler (w : World) (endpoint : String) (openConns : List ClientConn) :
    HandlerOutcome :=
  if endpoint == "" then
    ⟨400, "index.html", some "endpoint is required", openConns⟩
  else
    let made := NewGrpcuiProxyOption w endpoint openConns
    match made.result with
    | .error err => ⟨400, "index.html", some err.message, made.openConns⟩
    | .ok option => ⟨200, "index-template.html", none, ClientConn.Close option.cc made.openConns⟩

/-! ## Notions used in the statements -/

/-- The error of a connect attempt, if it failed. -/
def Attempt.connectErr : Attempt → Option GoError
  | .connect u => u.2
  | .handshake _ => none

/-- The error of a handshake, if it failed. -/
def Attempt.handshakeErr : Attempt → Option GoError
  | .connect _ => none
  | .handshake u => u.2.2

/-- The most recent error of a sequence of optional errors, or `earlier` when
none of them is an error. -/
def mostRecent (errs : List (Option GoError)) (earlier : Option GoError) : Option GoError :=
  match (errs.filterMap id).getLast? with
  | some e => some e
  | none => earlier

/-! ## Example servers -/

/-- The service `pkg.Greeter` of the examples. -/
def greeter : ServiceDescriptor :=
  ⟨"pkg.Greeter", [⟨"pkg.Greeter", "SayHello"⟩, ⟨"pkg.Greeter", "SayBye"⟩]⟩

/-- The service `pkg.Admin` of the examples. -/
def admin : ServiceDescriptor :=
  ⟨"pkg.Admin", [⟨"pkg.Admin", "Shutdown"⟩]⟩

/-- The reflection service itself, as a server describes it. -/
def reflectionV1 : ServiceDescriptor :=
  ⟨"grpc.reflection.v1.ServerReflection",
    [⟨"grpc.reflection.v1.ServerReflection", "ServerReflectionInfo"⟩]⟩

/-- The descriptor each example service name resolves to. -/
def exampleDescriptor (s : String) : ServiceDescriptor :=
  if s = "pkg.Greeter" then greeter
  else if s = "pkg.Admin" then admin
  else reflectionV1

/-- A server that advertises `pkg.Greeter` and `pkg.Admin`. -/
def exampleSource : DescriptorSource where
  ListServices := .ok ["pkg.Greeter", "pkg.Admin"]
  FindSymbol := fun s =>
    if s = "pkg.Greeter" ∨ s = "pkg.Admin" then .ok (.service (exampleDescriptor s))
    else .error ⟨"Symbol not found: " ++ s⟩

/-- A server that advertises its reflection service between `pkg.Greeter` and
`pkg.Admin`. -/
def reflectingSource : DescriptorSource where
  ListServices := .ok ["pkg.Greeter", "grpc.reflection.v1.ServerReflection", "pkg.Admin"]
  FindSymbol := fun s =>
    if s = "pkg.Greeter" ∨ s = "pkg.Admin" ∨ s = "grpc.reflection.v1.ServerReflection" then
      .ok (.service (exampleDescriptor s))
    else .error ⟨"Symbol not found: " ++ s⟩

/-- A server that does not support reflection: listing its services fails. -/
def noReflectionSource : DescriptorSource where
  ListServices := .error ⟨"server does not support the reflection API"⟩
  FindSymbol := fun s => .error ⟨"Symbol not found: " ++ s⟩

/-- A world in which every dial yields connection 7 to a server without
reflection support. -/
def noReflectionWorld : World where
  BlockingDial := fun _ _ _ => .ok 7
  DialContext := fun _ _ _ => ⟨[.connect (some 1, none)], .ok 7⟩
  DescriptorSourceFromServer := fun _ => noReflectionSource
  GetAllFiles := fun _ => .error ⟨"server does not support the reflection API"⟩

/-- A world in which every dial yields connection 7 to the example server,
whose file descriptors cannot be collected. -/
def brokenFilesWorld : World where
  BlockingDial := fun _ _ _ => .ok 7
  DialContext := fun _ _ _ => ⟨[.connect (some 1, none)], .ok 7⟩
  DescriptorSourceFromServer := fun _ => exampleSource
  GetAllFiles := fun _ => .error ⟨"File not found: pkg/greeter.proto"⟩

/-- A world whose server refuses the first connect and accepts the second:
the fail-fast dial reports the refusal, the blocking dial ends connected. -/
def flakyWorld : World where
  BlockingDial := fun _ _ _ => .error ⟨"connection refused"⟩
  DialContext := fun _ _ _ =>
    ⟨[.connect (none, some ⟨"connection refused"⟩), .connect (some 1, none)], .ok 7⟩
  DescriptorSourceFromServer := fun _ => exampleSource
  GetAllFiles := fun _ => .ok ["pkg/greeter.proto", "pkg/admin.proto"]

/-- A world whose server refuses the first connect, accepts the second and
then fails the handshake, until the blocking connect gives up. -/
def badCertificateWorld : World where
  BlockingDial := fun _ _ _ => .error ⟨"connection refused"⟩
  DialContext := fun _ _ _ =>
    ⟨[.connect (none, some ⟨"connection refused"⟩), .connect (some 1, none),
        .handshake (none, none, some ⟨"tls: bad certificate"⟩)],
      .error ⟨"context deadline exceeded"⟩⟩
  DescriptorSourceFromServer := fun _ => exampleSource
  GetAllFiles := fun _ => .ok ["pkg/greeter.proto", "pkg/admin.proto"]

/-- The text `getMethods` writes when `method` is listed under the wholly
included service `svc`. -/
def redundantWarning (svc method : String) : String :=
  warn ("Service " ++ svc ++ " already configured, so -method " ++ method ++ " is unnecessary")

/-- A server that lists `pkg.Greeter` and `pkg.Admin` but cannot describe
`pkg.Admin`. -/
def unresolvedSource : DescriptorSource where
  ListServices := .ok ["pkg.Greeter", "pkg.Admin"]
  FindSymbol := fun s =>
    if s = "pkg.Greeter" then .ok (.service greeter)
    else .error ⟨"Symbol not found: " ++ s⟩

/-! ## Error-tracking transport: lemmas -/

theorem mostRecent_nil (earlier : Option GoError) : mostRecent [] earlier = earlier := rfl

theorem mostRecent_cons_none (errs : List (Option GoError)) (earlier : Option GoError) :
    mostRecent (none :: errs) earlier = mostRecent errs earlier := by
  simp [mostRecent]

theorem mostRecent_cons_some (e : GoError) (errs : List (Option GoError))
    (earlier : Option GoError) :
    mostRecent (some e :: errs) earlier = mostRecent errs (some e) := by
  unfold mostRecent
  simp only [List.filterMap_cons, id, List.getLast?_cons]
  cases (List.filterMap id errs).getLast? <;> rfl

theorem dialMany_fst (us : List (Option NetConn × Option GoError)) :
    ∀ c : errTrackingDialer, (c.dialMany us).1 = us := by
  induction us with
  | nil => intro c; rfl
  | cons u us ih =>
    intro c
    obtain ⟨conn, err⟩ := u
    cases err <;> simp [errTrackingDialer.dialMany, errTrackingDialer.dial, ih]

theorem dialMany_err (us : List (Option NetConn × Option GoError)) :
    ∀ c : errTrackingDialer, (c.dialMany us).2.err = mostRecent (us.map Prod.snd) c.err := by
  induction us with
  | nil => intro c; rfl
  | cons u us ih =>
    intro c
    obtain ⟨conn, err⟩ := u
    cases err with
    | none =>
      simp only [errTrackingDialer.dialMany, errTrackingDialer.dial, ih, List.map_cons,
        mostRecent_cons_none]
    | some e =>
      simp only [errTrackingDialer.dialMany, errTrackingDialer.dial, List.map_cons,
        mostRecent_cons_some]
      exact ih _

theorem handshakeMany_fst (us : List (Option NetConn × Option AuthInfo × Option GoError)) :
    ∀ c : errTrackingCreds, (c.handshakeMany us).1 = us := by
  induction us with
  | nil => intro c; rfl
  | cons u us ih =>
    intro c
    obtain ⟨conn, auth, err⟩ := u
    cases err <;> simp [errTrackingCreds.handshakeMany, errTrackingCreds.ClientHandshake, ih]

theorem handshakeMany_err (us : List (Option NetConn × Option AuthInfo × Option GoError)) :
    ∀ c : errTrackingCreds,
      (c.handshakeMany us).2.err = mostRecent (us.map (fun u => u.2.2)) c.err := by
  induction us with
  | nil => intro c; rfl
  | cons u us ih =>
    intro c
    obtain ⟨conn, auth, err⟩ := u
    cases err with
    | none =>
      simp only [errTrackingCreds.handshakeMany, errTrackingCreds.ClientHandshake, ih,
        List.map_cons, mostRecent_cons_none]
    | some e =>
      simp only [errTrackingCreds.handshakeMany, errTrackingCreds.ClientHandshake,
        List.map_cons, mostRecent_cons_some]
      exact ih _

theorem observe_dialer (wrapped : Bool) (attempts : List Attempt) :
    ∀ (d : errTrackingDialer) (c : errTrackingCreds),
      (dial.observe wrapped attempts (d, c)).1.err
        = mostRecent (attempts.map Attempt.connectErr) d.err := by
  induction attempts with
  | nil => intro d c; rfl
  | cons a rest ih =>
    intro d c
    cases a with
    | connect u =>
      obtain ⟨conn, err⟩ := u
      cases err with
      | none =>
        simp only [dial.observe, errTrackingDialer.dial, ih, List.map_cons, Attempt.connectErr,
          mostRecent_cons_none]
      | some e =>
        simp only [dial.observe, errTrackingDialer.dial, List.map_cons, Attempt.connectErr,
          mostRecent_cons_some]
        exact ih _ _
    | handshake u =>
      cases wrapped <;>
        simp [dial.observe, ih, List.map_cons, Attempt.connectErr, mostRecent_cons_none]

theorem observe_creds_wrapped (attempts : List Attempt) :
    ∀ (d : errTrackingDialer) (c : errTrackingCreds),
      (dial.observe true attempts (d, c)).2.err
        = mostRecent (attempts.map Attempt.handshakeErr) c.err := by
  induction attempts with
  | nil => intro d c; rfl
  | cons a rest ih =>
    intro d c
    cases a with
    | connect u =>
      simp [dial.observe, ih, List.map_cons, Attempt.handshakeErr, mostRecent_cons_none]
    | handshake u =>
      obtain ⟨conn, auth, err⟩ := u
      cases err with
      | none =>
        simp [dial.observe, errTrackingCreds.ClientHandshake, ih, List.map_cons,
          Attempt.handshakeErr, mostRecent_cons_none]
      | some e =>
        simp only [dial.observe, errTrackingCreds.ClientHandshake, List.map_cons,
          Attempt.handshakeErr, mostRecent_cons_some, if_true]
        exact ih _ _

theorem observe_creds_unwrapped (attempts : List Attempt) :
    ∀ (d : errTrackingDialer) (c : errTrackingCreds),
      (dial.observe false attempts (d, c)).2 = c := by
  induction attempts with
  | nil => intro d c; rfl
  | cons a rest ih =>
    intro d c
    cases a <;> simp [dial.observe, ih]

/-! ## Error-tracking transport and `dial`: properties -/

/-- C10: over any sequence of attempts through `errTrackingDialer.dial`, and
likewise of handshakes through `errTrackingCreds.ClientHandshake`, every call
returns exactly what the wrapped primitive returned, and afterwards `err()`
is the error of the most recent failed attempt, or what it was before the
sequence (nil for a new tracker) when no attempt failed; a successful attempt
leaves the tracker unchanged and a failed one overwrites the recorded error. -/
theorem errTracking_records_most_recent_failure
    (d : errTrackingDialer) (c : errTrackingCreds)
    (dials : List (Option NetConn × Option GoError))
    (handshakes : List (Option NetConn × Option AuthInfo × Option GoError)) :
    ((d.dialMany dials).1 = dials ∧
      (d.dialMany dials).2.err = mostRecent (dials.map Prod.snd) d.err ∧
      (∀ u, (d.dial u).1 = u) ∧
      (∀ conn, (d.dial (conn, none)).2 = d) ∧
      (∀ conn e, (d.dial (conn, some e)).2.err = some e)) ∧
    ((c.handshakeMany handshakes).1 = handshakes ∧
      (c.handshakeMany handshakes).2.err = mostRecent (handshakes.map (fun u => u.2.2)) c.err ∧
      (∀ u, (c.ClientHandshake u).1 = u) ∧
      (∀ conn auth, (c.ClientHandshake (conn, auth, none)).2 = c) ∧
      (∀ conn auth e, (c.ClientHandshake (conn, auth, some e)).2.err = some e)) := by
  refine ⟨⟨dialMany_fst dials d, dialMany_err dials d, ?_, fun _ => rfl, fun _ _ => rfl⟩,
    ⟨handshakeMany_fst handshakes c, handshakeMany_err handshakes c, ?_, fun _ _ => rfl,
      fun _ _ _ => rfl⟩⟩
  · rintro ⟨conn, err⟩
    cases err <;> rfl
  · rintro ⟨conn, auth, err⟩
    cases err <;> rfl

/-- C7: with `failFast = false`, when the blocking connect succeeds `dial`
returns its connection and no error; when it fails with `e`, `dial` returns no
connection and the most recent handshake error the tracking credentials
recorded (they record only when credentials were supplied), else the most
recent connect error the tracking dialer recorded, else `e`. -/
theorem dial_no_fail_fast_arbitration (w : World) (network addr : String)
    (creds : Option TransportCredentials) :
    dial w network addr creds false =
      match (w.DialContext network addr creds).result with
      | .ok cc => .ok cc
      | .error e =>
        match (if creds.isSome then
            mostRecent ((w.DialContext network addr creds).attempts.map Attempt.handshakeErr) none
          else none) with
        | some hsErr => .error hsErr
        | none =>
          match mostRecent ((w.DialContext network addr creds).attempts.map Attempt.connectErr)
              none with
          | some dialErr => .error dialErr
          | none => .error e := by
  unfold dial
  cases creds with
  | none =>
    have hd := observe_dialer false (w.DialContext network addr none).attempts
      ⟨network, none⟩ ⟨none, none⟩
    have hc := observe_creds_unwrapped (w.DialContext network addr none).attempts
      ⟨network, none⟩ ⟨none, none⟩
    simp only [errTrackingDialer.err] at hd
    simp only [Bool.false_eq_true, if_false, Option.isSome_none, errTrackingCreds.err,
      errTrackingDialer.err, hd, hc]
  | some tc =>
    have hd := observe_dialer true (w.DialContext network addr (some tc)).attempts
      ⟨network, none⟩ ⟨some tc, none⟩
    have hc := observe_creds_wrapped (w.DialContext network addr (some tc)).attempts
      ⟨network, none⟩ ⟨some tc, none⟩
    simp only [errTrackingDialer.err] at hd
    simp only [errTrackingCreds.err] at hc
    simp only [Bool.false_eq_true, if_false, Option.isSome_some, if_true, errTrackingCreds.err,
      errTrackingDialer.err, hd, hc]

/-- C10, at a new dialer and new credentials that each see a failure, a
success, a second failure and a success: the second failure is the one kept. -/
theorem errTracking_records_most_recent_failure_witness :
    ((⟨"tcp", none⟩ : errTrackingDialer).dialMany
        [(none, some ⟨"no route to host"⟩), (some 1, none),
          (none, some ⟨"connection refused"⟩), (some 2, none)]).2.err
        = some ⟨"connection refused"⟩ ∧
      ((⟨some "tls", none⟩ : errTrackingCreds).handshakeMany
        [(none, none, some ⟨"tls: handshake timeout"⟩), (some 1, some 1, none),
          (none, none, some ⟨"tls: bad certificate"⟩), (some 2, some 2, none)]).2.err
        = some ⟨"tls: bad certificate"⟩ := by
  have h := errTracking_records_most_recent_failure ⟨"tcp", none⟩ ⟨some "tls", none⟩
    [(none, some ⟨"no route to host"⟩), (some 1, none),
      (none, some ⟨"connection refused"⟩), (some 2, none)]
    [(none, none, some ⟨"tls: handshake timeout"⟩), (some 1, some 1, none),
      (none, none, some ⟨"tls: bad certificate"⟩), (some 2, some 2, none)]
  rw [h.1.2.1, h.2.2.1]
  decide

/-- C7, at a server that fails the handshake after a refused connect: with
credentials the handshake error is returned, with nil credentials (nothing
tracks the handshake) the connect error, and the connection of a connect that
succeeds is returned as it is. -/
theorem dial_no_fail_fast_arbitration_witness :
    dial badCertificateWorld "tcp" "svc.internal:443" (some "tls") false
        = .error ⟨"tls: bad certificate"⟩ ∧
      dial badCertificateWorld "tcp" "svc.internal:443" none false
        = .error ⟨"connection refused"⟩ ∧
      dial flakyWorld "tcp" "svc.internal:443" none false = .ok 7 := by
  rw [dial_no_fail_fast_arbitration, dial_no_fail_fast_arbitration,
    dial_no_fail_fast_arbitration]
  decide

/-! ## The policy map: lemmas -/

theorem mapLookup_cons (k : String) (c : svcConfig) (configs : Configs) (s : String) :
    mapLookup ((k, c) :: configs) s = if s = k then some c else mapLookup configs s := by
  unfold mapLookup
  rw [List.lookup_cons]
  by_cases h : s = k
  · simp [h]
  · have hb : (s == k) = false := by simpa using h
    simp [h, hb]

theorem mapLookup_eq_none (configs : Configs) (s : String) :
    mapLookup configs s = none ↔ s ∉ configs.map Prod.fst := by
  induction configs with
  | nil => simp [mapLookup]
  | cons e rest ih =>
    obtain ⟨k, c⟩ := e
    rw [mapLookup_cons]
    by_cases h : s = k
    · simp [h]
    · simp [h, ih]

theorem mapLookup_mem_keys (configs : Configs) (s : String) (c : svcConfig)
    (h : mapLookup configs s = some c) : s ∈ configs.map Prod.fst := by
  by_contra hn
  rw [(mapLookup_eq_none configs s).mpr hn] at h
  cases h

theorem mapDelete_cons (k : String) (c : svcConfig) (configs : Configs) (s : String) :
    mapDelete ((k, c) :: configs) s
      = if k = s then mapDelete configs s else (k, c) :: mapDelete configs s := by
  unfold mapDelete
  by_cases h : k = s
  · simp [h]
  · simp [h, List.filter_cons]

theorem mapLookup_mapDelete_ne (configs : Configs) (s k : String) (h : k ≠ s) :
    mapLookup (mapDelete configs s) k = mapLookup configs k := by
  induction configs with
  | nil => rfl
  | cons e rest ih =>
    obtain ⟨k0, c⟩ := e
    rw [mapDelete_cons, mapLookup_cons]
    by_cases h0 : k0 = s
    · have hk : k ≠ k0 := by rw [h0]; exact h
      simp [h0, ih, h]
    · rw [if_neg h0, mapLookup_cons, ih]

theorem keys_mapDelete (configs : Configs) (s : String) :
    (mapDelete configs s).map Prod.fst = (configs.map Prod.fst).filter (fun k => k != s) := by
  induction configs with
  | nil => rfl
  | cons e rest ih =>
    obtain ⟨k0, c⟩ := e
    rw [mapDelete_cons]
    by_cases h0 : k0 = s
    · simp [h0, ih]
    · simp [h0, ih, List.filter_cons]

/-! ## The inner loop: lemmas -/

theorem methodLoop_none (svc : String) (mds : List MethodDescriptor) :
    ∀ (descs : List MethodDescriptor) (stderr : List String),
      getMethods.methodLoop svc none mds descs stderr = (none, descs ++ mds, stderr) := by
  induction mds with
  | nil => intro descs stderr; simp [getMethods.methodLoop]
  | cons md rest ih =>
    intro descs stderr
    simp [getMethods.methodLoop, ih]

theorem methodLoop_cfg (svc : String) (mds : List MethodDescriptor) :
    ∀ (cfg : svcConfig) (descs : List MethodDescriptor) (stderr : List String),
      (getMethods.methodLoop svc (some cfg) mds descs stderr).1
        = some ⟨cfg.includeService,
            cfg.includeMethods.filter (fun m => decide (m ∉ mds.map MethodDescriptor.name))⟩ := by
  induction mds with
  | nil => intro cfg descs stderr; simp [getMethods.methodLoop]
  | cons md rest ih =>
    intro cfg descs stderr
    simp only [getMethods.methodLoop, ih, setDelete, List.filter_filter, List.map_cons,
      List.mem_cons, not_or]
    congr 2
    apply List.filter_congr
    intro m _
    by_cases h1 : m = md.name <;> by_cases h2 : m ∈ rest.map MethodDescriptor.name <;>
      simp [h1, h2]

theorem methodLoop_nodup (svc : String) (mds : List MethodDescriptor) :
    ∀ (cfg : svcConfig) (descs : List MethodDescriptor) (stderr : List String),
      (mds.map MethodDescriptor.name).Nodup →
      getMethods.methodLoop svc (some cfg) mds descs stderr
        = (some ⟨cfg.includeService,
              cfg.includeMethods.filter (fun m => decide (m ∉ mds.map MethodDescriptor.name))⟩,
            descs ++ mds.filter
              (fun md => decide (md.name ∈ cfg.includeMethods) || cfg.includeService),
            stderr ++ (mds.filter
              (fun md => decide (md.name ∈ cfg.includeMethods) && cfg.includeService)).map
              (fun md => warn ("Service " ++ svc ++ " already configured, so -method " ++ md.name
                ++ " is unnecessary"))) := by
  induction mds with
  | nil => intro cfg descs stderr _; simp [getMethods.methodLoop]
  | cons md rest ih =>
    intro cfg descs stderr hnd
    rw [List.map_cons, List.nodup_cons] at hnd
    obtain ⟨hhead, hrest⟩ := hnd
    have hkeep : ∀ md1 ∈ rest,
        decide (md1.name ∈ setDelete cfg.includeMethods md.name)
          = decide (md1.name ∈ cfg.includeMethods) := by
      intro md1 hmem
      have hne : md1.name ≠ md.name := by
        intro heq
        exact hhead (heq ▸ List.mem_map_of_mem MethodDescriptor.name hmem)
      simp [setDelete, hne]
    have hf1 : rest.filter (fun md1 =>
          decide (md1.name ∈ setDelete cfg.includeMethods md.name) || cfg.includeService)
        = rest.filter (fun md1 => decide (md1.name ∈ cfg.includeMethods) || cfg.includeService) :=
      List.filter_congr (fun md1 hmem => by rw [hkeep md1 hmem])
    have hf2 : rest.filter (fun md1 =>
          decide (md1.name ∈ setDelete cfg.includeMethods md.name) && cfg.includeService)
        = rest.filter (fun md1 => decide (md1.name ∈ cfg.includeMethods) && cfg.includeService) :=
      List.filter_congr (fun md1 hmem => by rw [hkeep md1 hmem])
    have hf3 : (setDelete cfg.includeMethods md.name).filter
          (fun m => decide (m ∉ rest.map MethodDescriptor.name))
        = cfg.includeMethods.filter
          (fun m => decide (m ∉ (md :: rest).map MethodDescriptor.name)) := by
      simp only [setDelete, List.filter_filter, List.map_cons, List.mem_cons, not_or]
      apply List.filter_congr
      intro m _
      by_cases h1 : m = md.name <;> by_cases h2 : m ∈ rest.map MethodDescriptor.name <;>
        simp [h1, h2]
    simp only [getMethods.methodLoop]
    rw [ih _ _ _ hrest, hf1, hf2, hf3]
    by_cases hfound : md.name ∈ cfg.includeMethods <;> cases hs : cfg.includeService <;>
      simp [hfound, hs, List.filter_cons]

/-! ## The outer loop: lemmas -/

theorem isReflectionService_eq_false (s : String) :
    isReflectionService s = false ↔
      s ≠ "grpc.reflection.v1alpha.ServerReflection" ∧ s ≠ "grpc.reflection.v1.ServerReflection" := by
  simp [isReflectionService]

theorem sortStrings_sorted (l : List String) : (sortStrings l).Sorted stringsLE :=
  List.sorted_insertionSort stringsLE l

theorem sortStrings_perm (l : List String) : (sortStrings l).Perm l :=
  List.perm_insertionSort stringsLE l

/-- One turn of the outer loop for a service that resolves and has an entry
in the working policy, in terms of what the inner loop leaves behind. -/
theorem serviceLoop_entry (source : DescriptorSource) (svc : String) (rest : List String)
    (configs : Configs) (descs : List MethodDescriptor) (stderr : List String)
    (sd : ServiceDescriptor) (cfg : svcConfig)
    (hrefl : isReflectionService svc = false)
    (hfind : source.FindSymbol svc = .ok (.service sd))
    (hcfg : mapLookup configs svc = some cfg)
    (left : List String) (descs1 : List MethodDescriptor) (stderr1 : List String)
    (hloop : getMethods.methodLoop svc (some cfg) sd.methods descs stderr
      = (some ⟨cfg.includeService, left⟩, descs1, stderr1)) :
    getMethods.serviceLoop source (svc :: rest) configs descs stderr
      = if left.length > 0 then
          ⟨.error ⟨"configured methods not found: " ++
            joinComma (sortStrings (left.map (fun m => svc ++ "/" ++ m)))⟩, stderr1⟩
        else getMethods.serviceLoop source rest (mapDelete configs svc) descs1 stderr1 := by
  simp [getMethods.serviceLoop, hrefl, hfind, hcfg, hloop]

/-- What the inner loop returns, with the entry it leaves behind made explicit. -/
theorem methodLoop_shape (svc : String) (mds : List MethodDescriptor) (cfg : svcConfig)
    (descs : List MethodDescriptor) (stderr : List String) :
    ∃ descs1 stderr1,
      getMethods.methodLoop svc (some cfg) mds descs stderr
        = (some ⟨cfg.includeService,
              cfg.includeMethods.filter (fun m => decide (m ∉ mds.map MethodDescriptor.name))⟩,
            descs1, stderr1) := by
  have h := methodLoop_cfg svc mds cfg descs stderr
  rcases hm : getMethods.methodLoop svc (some cfg) mds descs stderr with ⟨c1, d1, s1⟩
  rw [hm] at h
  simp only at h
  exact ⟨d1, s1, by rw [h]⟩

theorem serviceLoop_skip_reflection (source : DescriptorSource) (svc : String)
    (rest : List String) (configs : Configs) (descs : List MethodDescriptor)
    (stderr : List String) (hrefl : isReflectionService svc = true) :
    getMethods.serviceLoop source (svc :: rest) configs descs stderr
      = getMethods.serviceLoop source rest configs descs stderr := by
  simp [getMethods.serviceLoop, hrefl]

theorem serviceLoop_skip_unlisted (source : DescriptorSource) (svc : String)
    (rest : List String) (configs : Configs) (descs : List MethodDescriptor)
    (stderr : List String) (sd : ServiceDescriptor)
    (hrefl : isReflectionService svc = false)
    (hfind : source.FindSymbol svc = .ok (.service sd))
    (hcfg : mapLookup configs svc = none) (hne : configs ≠ []) :
    getMethods.serviceLoop source (svc :: rest) configs descs stderr
      = getMethods.serviceLoop source rest configs descs stderr := by
  have hlen : configs.length ≠ 0 := by simpa using hne
  simp [getMethods.serviceLoop, hrefl, hfind, hcfg, hlen]

theorem serviceLoop_empty_policy (source : DescriptorSource) (sdOf : String → ServiceDescriptor)
    (services : List String) :
    ∀ (descs : List MethodDescriptor) (stderr : List String),
      (∀ s ∈ services, isReflectionService s = false →
        source.FindSymbol s = .ok (.service (sdOf s))) →
      getMethods.serviceLoop source services [] descs stderr
        = ⟨.ok (descs ++ (services.filter (fun s => !isReflectionService s)).flatMap
            (fun s => (sdOf s).methods)), stderr⟩ := by
  induction services with
  | nil => intro descs stderr _; simp [getMethods.serviceLoop]
  | cons s rest ih =>
    intro descs stderr hres
    have hrest : ∀ s1 ∈ rest, isReflectionService s1 = false →
        source.FindSymbol s1 = .ok (.service (sdOf s1)) :=
      fun s1 h1 => hres s1 (List.mem_cons_of_mem _ h1)
    cases hrefl : isReflectionService s with
    | true =>
      rw [serviceLoop_skip_reflection source s rest [] descs stderr hrefl, ih descs stderr hrest]
      simp [List.filter_cons, hrefl]
    | false =>
      have hfind := hres s (List.mem_cons_self _ _) hrefl
      simp only [getMethods.serviceLoop, hrefl, hfind, mapLookup, List.lookup_nil,
        methodLoop_none, mapDelete, List.filter_nil, List.length_nil]
      simp [ih _ stderr hrest, List.filter_cons, hrefl]

theorem filter_unmatched_eq_nil (names : List String) (mds : List MethodDescriptor)
    (h : ∀ m ∈ names, m ∈ mds.map MethodDescriptor.name) :
    names.filter (fun m => decide (m ∉ mds.map MethodDescriptor.name)) = [] := by
  rw [List.filter_eq_nil_iff]
  intro m hm
  simpa using h m hm

/-- A policy with an entry the server does not advertise is never emptied by
the loop, and what is left of it at the end are the entries that were not
consumed. -/
theorem serviceLoop_unadvertised (source : DescriptorSource) (sdOf : String → ServiceDescriptor)
    (services : List String) :
    ∀ (configs : Configs) (descs : List MethodDescriptor) (stderr : List String),
      (∀ s ∈ services, isReflectionService s = false →
        source.FindSymbol s = .ok (.service (sdOf s))) →
      (∀ s ∈ services, isReflectionService s = false → ∀ c, mapLookup configs s = some c →
        ∀ m ∈ c.includeMethods, m ∈ (sdOf s).methods.map MethodDescriptor.name) →
      (∃ u ∈ configs.map Prod.fst, u ∉ services) →
      (getMethods.serviceLoop source services configs descs stderr).result
        = .error ⟨"configured services not found: " ++ joinComma (sortStrings
            ((configs.map Prod.fst).filter
              (fun k => !(decide (k ∈ services) && !isReflectionService k))))⟩ := by
  induction services with
  | nil =>
    intro configs descs stderr _ _ hu
    obtain ⟨u, hu, _⟩ := hu
    have hlen : 0 < configs.length := by
      cases configs with
      | nil => simp at hu
      | cons e t => simp
    simp [getMethods.serviceLoop, hlen]
  | cons s rest ih =>
    intro configs descs stderr hres hmatch hu
    obtain ⟨u, hukey, hunot⟩ := hu
    have hus : u ≠ s := fun h => hunot (h ▸ List.mem_cons_self _ _)
    have hurest : u ∉ rest := fun h => hunot (List.mem_cons_of_mem _ h)
    have hne : configs ≠ [] := by
      intro h
      rw [h] at hukey
      simp at hukey
    have hres1 : ∀ s1 ∈ rest, isReflectionService s1 = false →
        source.FindSymbol s1 = .ok (.service (sdOf s1)) :=
      fun s1 h1 => hres s1 (List.mem_cons_of_mem _ h1)
    cases hrefl : isReflectionService s with
    | true =>
      rw [serviceLoop_skip_reflection source s rest configs descs stderr hrefl,
        ih configs descs stderr hres1
          (fun s1 h1 => hmatch s1 (List.mem_cons_of_mem _ h1)) ⟨u, hukey, hurest⟩]
      congr 5
      apply List.filter_congr
      intro k _
      by_cases hk : k = s
      · simp [hk, hrefl]
      · simp [hk]
    | false =>
      have hfind := hres s (List.mem_cons_self _ _) hrefl
      cases hl : mapLookup configs s with
      | none =>
        rw [serviceLoop_skip_unlisted source s rest configs descs stderr (sdOf s) hrefl hfind hl
          hne, ih configs descs stderr hres1
          (fun s1 h1 => hmatch s1 (List.mem_cons_of_mem _ h1)) ⟨u, hukey, hurest⟩]
        congr 5
        apply List.filter_congr
        intro k hkmem
        have hk : k ≠ s := by
          intro h
          exact (mapLookup_eq_none configs s).mp hl (h ▸ hkmem)
        simp [hk]
      | some c =>
        obtain ⟨d1, s1, hloop⟩ := methodLoop_shape s (sdOf s).methods c descs stderr
        rw [filter_unmatched_eq_nil _ _ (hmatch s (List.mem_cons_self _ _) hrefl c hl)] at hloop
        rw [serviceLoop_entry source s rest configs descs stderr (sdOf s) c hrefl hfind hl
          [] d1 s1 hloop]
        simp only [List.length_nil, gt_iff_lt, lt_self_iff_false, if_false]
        have hmatch1 : ∀ s2 ∈ rest, isReflectionService s2 = false →
            ∀ c2, mapLookup (mapDelete configs s) s2 = some c2 →
            ∀ m ∈ c2.includeMethods, m ∈ (sdOf s2).methods.map MethodDescriptor.name := by
          intro s2 h2 hr2 c2 hl2
          by_cases h2s : s2 = s
          · have hkeys := mapLookup_mem_keys _ _ _ hl2
            rw [keys_mapDelete, h2s] at hkeys
            simp at hkeys
          · rw [mapLookup_mapDelete_ne configs s s2 h2s] at hl2
            exact hmatch s2 (List.mem_cons_of_mem _ h2) hr2 c2 hl2
        have hu1 : ∃ u ∈ (mapDelete configs s).map Prod.fst, u ∉ rest := by
          refine ⟨u, ?_, hurest⟩
          rw [keys_mapDelete]
          simp only [List.mem_filter, bne_iff_ne, ne_eq]
          exact ⟨hukey, hus⟩
        rw [ih (mapDelete configs s) d1 s1 hres1 hmatch1 hu1, keys_mapDelete, List.filter_filter]
        congr 5
        apply List.filter_congr
        intro k _
        by_cases hk : k = s
        · simp [hk, hrefl]
        · simp [hk]

/-- The loop stops at the first service whose entry lists a name the service
does not have, with the names of that entry that found no method. -/
theorem serviceLoop_unmatched (source : DescriptorSource) (sdOf : String → ServiceDescriptor)
    (svc : String) (sd : ServiceDescriptor) (cfg : svcConfig) (post : List String)
    (hrefl : isReflectionService svc = false)
    (hfind : source.FindSymbol svc = .ok (.service sd))
    (hun : ∃ m ∈ cfg.includeMethods, m ∉ sd.methods.map MethodDescriptor.name)
    (pre : List String) :
    ∀ (configs : Configs) (descs : List MethodDescriptor) (stderr : List String),
      (∀ s ∈ pre, isReflectionService s = false →
        source.FindSymbol s = .ok (.service (sdOf s))) →
      (∀ s ∈ pre, isReflectionService s = false → ∀ c, mapLookup configs s = some c →
        ∀ m ∈ c.includeMethods, m ∈ (sdOf s).methods.map MethodDescriptor.name) →
      svc ∉ pre →
      mapLookup configs svc = some cfg →
      (getMethods.serviceLoop source (pre ++ svc :: post) configs descs stderr).result
        = .error ⟨"configured methods not found: " ++ joinComma (sortStrings
            ((cfg.includeMethods.filter
              (fun m => decide (m ∉ sd.methods.map MethodDescriptor.name))).map
              (fun m => svc ++ "/" ++ m)))⟩ := by
  induction pre with
  | nil =>
    intro configs descs stderr _ _ _ hcfg
    obtain ⟨d1, s1, hloop⟩ := methodLoop_shape svc sd.methods cfg descs stderr
    rw [List.nil_append, serviceLoop_entry source svc post configs descs stderr sd cfg hrefl
      hfind hcfg _ d1 s1 hloop]
    obtain ⟨m, hm, hmnot⟩ := hun
    have hpos : 0 < (cfg.includeMethods.filter
        (fun m => decide (m ∉ sd.methods.map MethodDescriptor.name))).length := by
      apply List.length_pos_of_mem (a := m)
      simp only [List.mem_filter, decide_eq_true_eq]
      exact ⟨hm, hmnot⟩
    simp only [gt_iff_lt, hpos, if_true]
  | cons s rest ih =>
    intro configs descs stderr hres hmatch hnot hcfg
    have hss : svc ≠ s := fun h => hnot (h ▸ List.mem_cons_self _ _)
    have hnot1 : svc ∉ rest := fun h => hnot (List.mem_cons_of_mem _ h)
    have hne : configs ≠ [] := by
      intro h
      rw [h] at hcfg
      simp [mapLookup] at hcfg
    have hres1 : ∀ s1 ∈ rest, isReflectionService s1 = false →
        source.FindSymbol s1 = .ok (.service (sdOf s1)) :=
      fun s1 h1 => hres s1 (List.mem_cons_of_mem _ h1)
    rw [List.cons_append]
    cases hr : isReflectionService s with
    | true =>
      rw [serviceLoop_skip_reflection source s _ configs descs stderr hr]
      exact ih configs descs stderr hres1
        (fun s1 h1 => hmatch s1 (List.mem_cons_of_mem _ h1)) hnot1 hcfg
    | false =>
      have hfs := hres s (List.mem_cons_self _ _) hr
      cases hl : mapLookup configs s with
      | none =>
        rw [serviceLoop_skip_unlisted source s _ configs descs stderr (sdOf s) hr hfs hl hne]
        exact ih configs descs stderr hres1
          (fun s1 h1 => hmatch s1 (List.mem_cons_of_mem _ h1)) hnot1 hcfg
      | some c =>
        obtain ⟨d1, s1, hloop⟩ := methodLoop_shape s (sdOf s).methods c descs stderr
        rw [filter_unmatched_eq_nil _ _ (hmatch s (List.mem_cons_self _ _) hr c hl)] at hloop
        rw [serviceLoop_entry source s _ configs descs stderr (sdOf s) c hr hfs hl
          [] d1 s1 hloop]
        simp only [List.length_nil, gt_iff_lt, lt_self_iff_false, if_false]
        have hmatch1 : ∀ s2 ∈ rest, isReflectionService s2 = false →
            ∀ c2, mapLookup (mapDelete configs s) s2 = some c2 →
            ∀ m ∈ c2.includeMethods, m ∈ (sdOf s2).methods.map MethodDescriptor.name := by
          intro s2 h2 hr2 c2 hl2
          by_cases h2s : s2 = s
          · have hkeys := mapLookup_mem_keys _ _ _ hl2
            rw [keys_mapDelete, h2s] at hkeys
            simp at hkeys
          · rw [mapLookup_mapDelete_ne configs s s2 h2s] at hl2
            exact hmatch s2 (List.mem_cons_of_mem _ h2) hr2 c2 hl2
        have hcfg1 : mapLookup (mapDelete configs s) svc = some cfg := by
          rw [mapLookup_mapDelete_ne configs s svc hss]
          exact hcfg
        exact ih (mapDelete configs s) d1 s1 hres1 hmatch1 hnot1 hcfg1

/-! ## The whole run: lemmas -/

/-- The inner loop only appends: to the methods, methods of the service; to
standard error, warnings. -/
theorem methodLoop_appends (svc : String) (mds : List MethodDescriptor) :
    ∀ (cfg : Option svcConfig) (descs : List MethodDescriptor) (stderr : List String),
      ∃ cfg1 added written,
        getMethods.methodLoop svc cfg mds descs stderr
          = (cfg1, descs ++ added, stderr ++ written) ∧
        ∀ md ∈ added, md ∈ mds := by
  induction mds with
  | nil =>
    intro cfg descs stderr
    exact ⟨cfg, [], [], by cases cfg <;> simp [getMethods.methodLoop], by simp⟩
  | cons md rest ih =>
    intro cfg descs stderr
    cases cfg with
    | none =>
      obtain ⟨c1, added, written, heq, hmem⟩ := ih none (descs ++ [md]) stderr
      refine ⟨c1, md :: added, written, ?_, ?_⟩
      · simp only [getMethods.methodLoop]
        rw [heq]
        simp
      · intro x hx
        rcases List.mem_cons.mp hx with h | h
        · rw [h]; exact List.mem_cons_self _ _
        · exact List.mem_cons_of_mem _ (hmem x h)
    | some c =>
      simp only [getMethods.methodLoop]
      by_cases hfound : md.name ∈ c.includeMethods <;> cases hs : c.includeService
      all_goals
        simp only [hfound, hs, decide_True, decide_False, Bool.and_true, Bool.and_false,
          Bool.or_true, Bool.or_false, Bool.true_or, Bool.false_or, if_true, if_false,
          Bool.false_eq_true]
      · obtain ⟨c1, added, written, heq, hmem⟩ :=
          ih (some ⟨false, setDelete c.includeMethods md.name⟩) (descs ++ [md]) stderr
        refine ⟨c1, md :: added, written, ?_, ?_⟩
        · rw [heq]; simp
        · intro x hx
          rcases List.mem_cons.mp hx with h | h
          · rw [h]; exact List.mem_cons_self _ _
          · exact List.mem_cons_of_mem _ (hmem x h)
      · obtain ⟨c1, added, written, heq, hmem⟩ :=
          ih (some ⟨true, setDelete c.includeMethods md.name⟩) (descs ++ [md])
            (stderr ++ [warn ("Service " ++ svc ++ " already configured, so -method " ++ md.name
              ++ " is unnecessary")])
        refine ⟨c1, md :: added,
          warn ("Service " ++ svc ++ " already configured, so -method " ++ md.name
            ++ " is unnecessary") :: written, ?_, ?_⟩
        · rw [heq]; simp
        · intro x hx
          rcases List.mem_cons.mp hx with h | h
          · rw [h]; exact List.mem_cons_self _ _
          · exact List.mem_cons_of_mem _ (hmem x h)
      · obtain ⟨c1, added, written, heq, hmem⟩ :=
          ih (some ⟨false, setDelete c.includeMethods md.name⟩) descs stderr
        exact ⟨c1, added, written, heq, fun x hx => List.mem_cons_of_mem _ (hmem x hx)⟩
      · obtain ⟨c1, added, written, heq, hmem⟩ :=
          ih (some ⟨true, setDelete c.includeMethods md.name⟩) (descs ++ [md]) stderr
        refine ⟨c1, md :: added, written, ?_, ?_⟩
        · rw [heq]; simp
        · intro x hx
          rcases List.mem_cons.mp hx with h | h
          · rw [h]; exact List.mem_cons_self _ _
          · exact List.mem_cons_of_mem _ (hmem x h)

theorem serviceLoop_find_error (source : DescriptorSource) (svc : String) (rest : List String)
    (configs : Configs) (descs : List MethodDescriptor) (stderr : List String) (err : GoError)
    (hrefl : isReflectionService svc = false) (hfind : source.FindSymbol svc = .error err) :
    getMethods.serviceLoop source (svc :: rest) configs descs stderr = ⟨.error err, stderr⟩ := by
  simp [getMethods.serviceLoop, hrefl, hfind]

theorem serviceLoop_find_other (source : DescriptorSource) (svc : String) (rest : List String)
    (configs : Configs) (descs : List MethodDescriptor) (stderr : List String)
    (fullName goType : String)
    (hrefl : isReflectionService svc = false)
    (hfind : source.FindSymbol svc = .ok (.other fullName goType)) :
    getMethods.serviceLoop source (svc :: rest) configs descs stderr
      = ⟨.error ⟨fullName ++ " should be a service descriptor but instead is a " ++ goType⟩,
          stderr⟩ := by
  simp [getMethods.serviceLoop, hrefl, hfind]

theorem serviceLoop_skip (source : DescriptorSource) (svc : String) (rest : List String)
    (configs : Configs) (descs : List MethodDescriptor) (stderr : List String)
    (sd : ServiceDescriptor)
    (hrefl : isReflectionService svc = false)
    (hfind : source.FindSymbol svc = .ok (.service sd))
    (hskip : ((mapLookup configs svc).isNone && configs.length != 0) = true) :
    getMethods.serviceLoop source (svc :: rest) configs descs stderr
      = getMethods.serviceLoop source rest configs descs stderr := by
  simp only [getMethods.serviceLoop, hrefl, hfind, hskip, if_true, Bool.false_eq_true, if_false]

theorem serviceLoop_turn_none (source : DescriptorSource) (svc : String) (rest : List String)
    (configs : Configs) (descs : List MethodDescriptor) (stderr : List String)
    (sd : ServiceDescriptor) (descs1 : List MethodDescriptor) (stderr1 : List String)
    (hrefl : isReflectionService svc = false)
    (hfind : source.FindSymbol svc = .ok (.service sd))
    (hskip : ¬ ((mapLookup configs svc).isNone && configs.length != 0) = true)
    (hloop : getMethods.methodLoop svc (mapLookup configs svc) sd.methods descs stderr
      = (none, descs1, stderr1)) :
    getMethods.serviceLoop source (svc :: rest) configs descs stderr
      = getMethods.serviceLoop source rest (mapDelete configs svc) descs1 stderr1 := by
  simp only [getMethods.serviceLoop, hrefl, hfind, hskip, if_false, Bool.false_eq_true, hloop]

theorem serviceLoop_turn_some (source : DescriptorSource) (svc : String) (rest : List String)
    (configs : Configs) (descs : List MethodDescriptor) (stderr : List String)
    (sd : ServiceDescriptor) (cfg1 : svcConfig) (descs1 : List MethodDescriptor)
    (stderr1 : List String)
    (hrefl : isReflectionService svc = false)
    (hfind : source.FindSymbol svc = .ok (.service sd))
    (hskip : ¬ ((mapLookup configs svc).isNone && configs.length != 0) = true)
    (hloop : getMethods.methodLoop svc (mapLookup configs svc) sd.methods descs stderr
      = (some cfg1, descs1, stderr1)) :
    getMethods.serviceLoop source (svc :: rest) configs descs stderr
      = if cfg1.includeMethods.length > 0 then
          ⟨.error ⟨"configured methods not found: " ++
            joinComma (sortStrings (cfg1.includeMethods.map (fun m => svc ++ "/" ++ m)))⟩, stderr1⟩
        else getMethods.serviceLoop source rest (mapDelete configs svc) descs1 stderr1 := by
  simp only [getMethods.serviceLoop, hrefl, hfind, hskip, if_false, Bool.false_eq_true, hloop]

/-- One turn of the outer loop, whatever the service: it either goes on to
the next service, with the working policy as it was or without the entry of
the service, having appended methods of the service and warnings, or it stops
with an error. -/
theorem serviceLoop_step (source : DescriptorSource) (svc : String) (rest : List String)
    (configs : Configs) (descs : List MethodDescriptor) (stderr : List String) :
    ∃ configs1 added written,
      (∀ md ∈ added, ∃ sd, source.FindSymbol svc = .ok (.service sd) ∧ md ∈ sd.methods) ∧
      (configs1 = configs ∨ configs1 = mapDelete configs svc) ∧
      (getMethods.serviceLoop source (svc :: rest) configs descs stderr
          = getMethods.serviceLoop source rest configs1 (descs ++ added) (stderr ++ written) ∨
        ∃ err, getMethods.serviceLoop source (svc :: rest) configs descs stderr
          = ⟨.error err, stderr ++ written⟩) := by
  cases hrefl : isReflectionService svc with
  | true =>
    refine ⟨configs, [], [], by simp, Or.inl rfl, Or.inl ?_⟩
    rw [serviceLoop_skip_reflection source svc rest configs descs stderr hrefl]
    simp
  | false =>
    cases hfind : source.FindSymbol svc with
    | error err =>
      refine ⟨configs, [], [], by simp, Or.inl rfl, Or.inr ⟨err, ?_⟩⟩
      rw [serviceLoop_find_error source svc rest configs descs stderr err hrefl hfind]
      simp
    | ok dsc =>
      cases dsc with
      | other fullName goType =>
        refine ⟨configs, [], [], by simp, Or.inl rfl, Or.inr
          ⟨⟨fullName ++ " should be a service descriptor but instead is a " ++ goType⟩, ?_⟩⟩
        rw [serviceLoop_find_other source svc rest configs descs stderr fullName goType hrefl
          hfind]
        simp
      | service sd =>
        by_cases hskip : ((mapLookup configs svc).isNone && configs.length != 0) = true
        · refine ⟨configs, [], [], by simp, Or.inl rfl, Or.inl ?_⟩
          rw [serviceLoop_skip source svc rest configs descs stderr sd hrefl hfind hskip]
          simp
        · obtain ⟨c1, added, written, hloop, hmem⟩ :=
            methodLoop_appends svc sd.methods (mapLookup configs svc) descs stderr
          refine ⟨mapDelete configs svc, added, written, fun md h => ⟨sd, rfl, hmem md h⟩,
            Or.inr rfl, ?_⟩
          cases c1 with
          | none =>
            exact Or.inl (serviceLoop_turn_none source svc rest configs descs stderr sd _ _
              hrefl hfind hskip hloop)
          | some cfg1 =>
            rw [serviceLoop_turn_some source svc rest configs descs stderr sd cfg1 _ _
              hrefl hfind hskip hloop]
            by_cases hlen : cfg1.includeMethods.length > 0
            · exact Or.inr ⟨_, by rw [if_pos hlen]⟩
            · exact Or.inl (by rw [if_neg hlen])

/-- Standard error only grows along the outer loop. -/
theorem serviceLoop_stderr_mono (source : DescriptorSource) (svcs : List String) :
    ∀ (configs : Configs) (descs : List MethodDescriptor) (stderr : List String),
      ∀ x ∈ stderr, x ∈ (getMethods.serviceLoop source svcs configs descs stderr).stderr := by
  induction svcs with
  | nil =>
    intro configs descs stderr x hx
    simp only [getMethods.serviceLoop]
    split <;> exact hx
  | cons s rest ih =>
    intro configs descs stderr x hx
    obtain ⟨configs1, added, written, _, _, hstep⟩ :=
      serviceLoop_step source s rest configs descs stderr
    rcases hstep with hgo | ⟨err, hstop⟩
    · rw [hgo]
      exact ih _ _ _ x (List.mem_append_left _ hx)
    · rw [hstop]
      exact List.mem_append_left _ hx

/-- A run over services among which `svc` is not listed returns no more
methods of `svc` than it started with. -/
theorem serviceLoop_filter_of_not_mem (source : DescriptorSource) (svc : String)
    (svcs : List String) :
    ∀ (configs : Configs) (d : List MethodDescriptor) (e : List String),
      svc ∉ svcs →
      (∀ s ∈ svcs, ∀ sd, source.FindSymbol s = .ok (.service sd) →
        ∀ md ∈ sd.methods, md.service = s) →
      ∀ descs, (getMethods.serviceLoop source svcs configs d e).result = .ok descs →
        descs.filter (fun md => decide (md.service = svc))
          = d.filter (fun md => decide (md.service = svc)) := by
  induction svcs with
  | nil =>
    intro configs d e _ _ descs hres
    simp only [getMethods.serviceLoop] at hres
    split at hres
    · cases hres
    · cases hres
      rfl
  | cons s rest ih =>
    intro configs d e hnot hparent descs hres
    have hs : s ≠ svc := fun h => hnot (h ▸ List.mem_cons_self _ _)
    obtain ⟨configs1, added, written, hadded, _, hstep⟩ :=
      serviceLoop_step source s rest configs d e
    rcases hstep with hgo | ⟨err, hstop⟩
    · rw [hgo] at hres
      rw [ih configs1 (d ++ added) (e ++ written) (fun h => hnot (List.mem_cons_of_mem _ h))
        (fun s1 h1 => hparent s1 (List.mem_cons_of_mem _ h1)) descs hres, List.filter_append]
      have hnone : added.filter (fun md => decide (md.service = svc)) = [] := by
        rw [List.filter_eq_nil_iff]
        intro md hmd
        obtain ⟨sd, hfind, hin⟩ := hadded md hmd
        have := hparent s (List.mem_cons_self _ _) sd hfind md hin
        simp [this, hs]
      rw [hnone, List.append_nil]
    · rw [hstop] at hres
      cases hres

/-- A run over services among which `svc` is listed once, with an entry in
the working policy whose names the inner loop all matches, returns the
methods the inner loop selects for `svc` as its methods of `svc`. -/
theorem serviceLoop_filter_of_mem (source : DescriptorSource) (svc : String)
    (sd : ServiceDescriptor) (cfg : svcConfig) (selected : List MethodDescriptor)
    (post : List String)
    (hrefl : isReflectionService svc = false)
    (hfind : source.FindSymbol svc = .ok (.service sd))
    (hturn : ∀ d e, ∃ e1, getMethods.methodLoop svc (some cfg) sd.methods d e
      = (some ⟨cfg.includeService, []⟩, d ++ selected, e1))
    (hselected : ∀ md ∈ selected, md.service = svc)
    (hpost : svc ∉ post)
    (hparentPost : ∀ s ∈ post, ∀ sd1, source.FindSymbol s = .ok (.service sd1) →
      ∀ md ∈ sd1.methods, md.service = s)
    (pre : List String) :
    ∀ (configs : Configs) (d : List MethodDescriptor) (e : List String),
      svc ∉ pre →
      (∀ s ∈ pre, ∀ sd1, source.FindSymbol s = .ok (.service sd1) →
        ∀ md ∈ sd1.methods, md.service = s) →
      mapLookup configs svc = some cfg →
      ∀ descs,
        (getMethods.serviceLoop source (pre ++ svc :: post) configs d e).result = .ok descs →
        descs.filter (fun md => decide (md.service = svc))
          = d.filter (fun md => decide (md.service = svc)) ++ selected := by
  induction pre with
  | nil =>
    intro configs d e _ _ hcfg descs hres
    obtain ⟨e1, hloop⟩ := hturn d e
    rw [List.nil_append, serviceLoop_entry source svc post configs d e sd cfg hrefl hfind hcfg
      [] _ _ hloop] at hres
    simp only [List.length_nil, gt_iff_lt, lt_self_iff_false, if_false] at hres
    rw [serviceLoop_filter_of_not_mem source svc post _ _ _ hpost hparentPost descs hres,
      List.filter_append]
    congr 1
    rw [List.filter_eq_self]
    intro md hmd
    simp [hselected md hmd]
  | cons s rest ih =>
    intro configs d e hnot hparent hcfg descs hres
    have hs : s ≠ svc := fun h => hnot (h ▸ List.mem_cons_self _ _)
    obtain ⟨configs1, added, written, hadded, hconfigs, hstep⟩ :=
      serviceLoop_step source s (rest ++ svc :: post) configs d e
    rw [List.cons_append] at hres
    rcases hstep with hgo | ⟨err, hstop⟩
    · rw [hgo] at hres
      have hcfg1 : mapLookup configs1 svc = some cfg := by
        rcases hconfigs with h | h
        · rw [h]; exact hcfg
        · rw [h, mapLookup_mapDelete_ne configs s svc (Ne.symm hs)]; exact hcfg
      rw [ih configs1 (d ++ added) (e ++ written) (fun h => hnot (List.mem_cons_of_mem _ h))
        (fun s1 h1 => hparent s1 (List.mem_cons_of_mem _ h1)) hcfg1 descs hres,
        List.filter_append]
      have hnone : added.filter (fun md => decide (md.service = svc)) = [] := by
        rw [List.filter_eq_nil_iff]
        intro md hmd
        obtain ⟨sd1, hfind1, hin⟩ := hadded md hmd
        have := hparent s (List.mem_cons_self _ _) sd1 hfind1 md hin
        simp [this, hs]
      rw [hnone, List.append_nil]
    · rw [hstop] at hres
      cases hres

/-- A run in which every service outside the reflection services resolves,
every entry of the working policy names such a service still to come, and
every entry of a service lists only names the service has, ends without an
error. -/
theorem serviceLoop_succeeds (source : DescriptorSource) (svcs : List String) :
    ∀ (configs : Configs) (d : List MethodDescriptor) (e : List String),
      (∀ s ∈ svcs, isReflectionService s = false →
        ∃ sd, source.FindSymbol s = .ok (.service sd) ∧
          ∀ c, mapLookup configs s = some c →
            ∀ m ∈ c.includeMethods, m ∈ sd.methods.map MethodDescriptor.name) →
      (∀ k ∈ configs.map Prod.fst, isReflectionService k = false ∧ k ∈ svcs) →
      ∃ descs, (getMethods.serviceLoop source svcs configs d e).result = .ok descs := by
  induction svcs with
  | nil =>
    intro configs d e _ hkeys
    have hnil : configs = [] := by
      cases configs with
      | nil => rfl
      | cons entry t =>
        have := (hkeys entry.1 (by simp)).2
        simp at this
    rw [hnil]
    exact ⟨d, by simp [getMethods.serviceLoop]⟩
  | cons s rest ih =>
    intro configs d e hok hkeys
    cases hrefl : isReflectionService s with
    | true =>
      rw [serviceLoop_skip_reflection source s rest configs d e hrefl]
      refine ih configs d e (fun s1 h1 => hok s1 (List.mem_cons_of_mem _ h1)) ?_
      intro k hk
      obtain ⟨hkr, hkm⟩ := hkeys k hk
      refine ⟨hkr, ?_⟩
      rcases List.mem_cons.mp hkm with h | h
      · rw [h, hrefl] at hkr
        cases hkr
      · exact h
    | false =>
      obtain ⟨sd, hfind, hmatch⟩ := hok s (List.mem_cons_self _ _) hrefl
      have hok1 : ∀ s1 ∈ rest, isReflectionService s1 = false →
          ∃ sd1, source.FindSymbol s1 = .ok (.service sd1) ∧
            ∀ c, mapLookup (mapDelete configs s) s1 = some c →
              ∀ m ∈ c.includeMethods, m ∈ sd1.methods.map MethodDescriptor.name := by
        intro s1 h1 hr1
        obtain ⟨sd1, hf1, hm1⟩ := hok s1 (List.mem_cons_of_mem _ h1) hr1
        refine ⟨sd1, hf1, ?_⟩
        intro c hl
        by_cases h1s : s1 = s
        · have hkeys1 := mapLookup_mem_keys _ _ _ hl
          rw [keys_mapDelete, h1s] at hkeys1
          simp at hkeys1
        · rw [mapLookup_mapDelete_ne configs s s1 h1s] at hl
          exact hm1 c hl
      have hkeys1 : ∀ k ∈ (mapDelete configs s).map Prod.fst,
          isReflectionService k = false ∧ k ∈ rest := by
        intro k hk
        rw [keys_mapDelete] at hk
        simp only [List.mem_filter, bne_iff_ne, ne_eq] at hk
        obtain ⟨hkr, hkm⟩ := hkeys k hk.1
        refine ⟨hkr, ?_⟩
        rcases List.mem_cons.mp hkm with h | h
        · exact absurd h hk.2
        · exact h
      cases hl : mapLookup configs s with
      | none =>
        by_cases hne : configs = []
        · have hskip : ¬ ((mapLookup configs s).isNone && configs.length != 0) = true := by
            simp [hne]
          have hloop : getMethods.methodLoop s (mapLookup configs s) sd.methods d e
              = (none, d ++ sd.methods, e) := by
            rw [hl]
            exact methodLoop_none s sd.methods d e
          rw [serviceLoop_turn_none source s rest configs d e sd _ _ hrefl hfind hskip hloop]
          exact ih _ _ _ hok1 hkeys1
        · rw [serviceLoop_skip_unlisted source s rest configs d e sd hrefl hfind hl hne]
          refine ih configs d e (fun s1 h1 => hok s1 (List.mem_cons_of_mem _ h1)) ?_
          intro k hk
          obtain ⟨hkr, hkm⟩ := hkeys k hk
          refine ⟨hkr, ?_⟩
          rcases List.mem_cons.mp hkm with h | h
          · exact absurd (h ▸ hk) ((mapLookup_eq_none configs s).mp hl)
          · exact h
      | some c =>
        obtain ⟨d1, e1, hloop⟩ := methodLoop_shape s sd.methods c d e
        rw [filter_unmatched_eq_nil _ _ (hmatch c hl)] at hloop
        rw [serviceLoop_entry source s rest configs d e sd c hrefl hfind hl [] d1 e1 hloop]
        simp only [List.length_nil, gt_iff_lt, lt_self_iff_false, if_false]
        exact ih _ _ _ hok1 hkeys1

/-- A run that reaches `svc`, every earlier service resolving and having the
names of its entry, writes what the inner loop writes for `svc`. -/
theorem serviceLoop_writes (source : DescriptorSource) (svc : String)
    (sd : ServiceDescriptor) (cfg : svcConfig) (line : String) (post : List String)
    (hrefl : isReflectionService svc = false)
    (hfind : source.FindSymbol svc = .ok (.service sd))
    (hturn : ∀ d e, ∃ d1 e1, getMethods.methodLoop svc (some cfg) sd.methods d e
      = (some ⟨cfg.includeService, []⟩, d1, e1) ∧ line ∈ e1)
    (pre : List String) :
    ∀ (configs : Configs) (d : List MethodDescriptor) (e : List String),
      (∀ s ∈ pre, isReflectionService s = false →
        ∃ sd1, source.FindSymbol s = .ok (.service sd1) ∧
          ∀ c, mapLookup configs s = some c →
            ∀ m ∈ c.includeMethods, m ∈ sd1.methods.map MethodDescriptor.name) →
      svc ∉ pre →
      mapLookup configs svc = some cfg →
      line ∈ (getMethods.serviceLoop source (pre ++ svc :: post) configs d e).stderr := by
  induction pre with
  | nil =>
    intro configs d e _ _ hcfg
    obtain ⟨d1, e1, hloop, hline⟩ := hturn d e
    rw [List.nil_append, serviceLoop_entry source svc post configs d e sd cfg hrefl hfind hcfg
      [] d1 e1 hloop]
    simp only [List.length_nil, gt_iff_lt, lt_self_iff_false, if_false]
    exact serviceLoop_stderr_mono source post _ _ _ line hline
  | cons s rest ih =>
    intro configs d e hok hnot hcfg
    have hss : svc ≠ s := fun h => hnot (h ▸ List.mem_cons_self _ _)
    have hnot1 : svc ∉ rest := fun h => hnot (List.mem_cons_of_mem _ h)
    have hne : configs ≠ [] := by
      intro h
      rw [h] at hcfg
      simp [mapLookup] at hcfg
    rw [List.cons_append]
    cases hr : isReflectionService s with
    | true =>
      rw [serviceLoop_skip_reflection source s _ configs d e hr]
      exact ih configs d e (fun s1 h1 => hok s1 (List.mem_cons_of_mem _ h1)) hnot1 hcfg
    | false =>
      obtain ⟨sd1, hfs, hmatch⟩ := hok s (List.mem_cons_self _ _) hr
      cases hl : mapLookup configs s with
      | none =>
        rw [serviceLoop_skip_unlisted source s _ configs d e sd1 hr hfs hl hne]
        exact ih configs d e (fun s1 h1 => hok s1 (List.mem_cons_of_mem _ h1)) hnot1 hcfg
      | some c =>
        obtain ⟨d1, e1, hloop⟩ := methodLoop_shape s sd1.methods c d e
        rw [filter_unmatched_eq_nil _ _ (hmatch c hl)] at hloop
        rw [serviceLoop_entry source s _ configs d e sd1 c hr hfs hl [] d1 e1 hloop]
        simp only [List.length_nil, gt_iff_lt, lt_self_iff_false, if_false]
        refine ih (mapDelete configs s) d1 e1 ?_ hnot1 ?_
        · intro s2 h2 hr2
          obtain ⟨sd2, hf2, hm2⟩ := hok s2 (List.mem_cons_of_mem _ h2) hr2
          refine ⟨sd2, hf2, ?_⟩
          intro c2 hl2
          by_cases h2s : s2 = s
          · have hkeys := mapLookup_mem_keys _ _ _ hl2
            rw [keys_mapDelete, h2s] at hkeys
            simp at hkeys
          · rw [mapLookup_mapDelete_ne configs s s2 h2s] at hl2
            exact hm2 c2 hl2
        · rw [mapLookup_mapDelete_ne configs s svc hss]
          exact hcfg

/-! ## `getMethods`: properties -/

/-- C1: the policy that wholly includes `pkg.Greeter`, against a server that
advertises `pkg.Greeter` and then `pkg.Admin`, does not yield only the methods
of `pkg.Greeter`: consuming the last entry empties the working policy, and
`getMethods` then treats `pkg.Admin` as if no policy were active. -/
theorem getMethods_emptied_policy_includes_later_services :
    getMethods exampleSource [("pkg.Greeter", ⟨true, []⟩)]
      = ⟨.ok [⟨"pkg.Greeter", "SayHello"⟩, ⟨"pkg.Greeter", "SayBye"⟩,
          ⟨"pkg.Admin", "Shutdown"⟩], []⟩ := by
  decide

/-- C2: when `ListServices` succeeds and every service other than the two
reflection services resolves to a service descriptor, `getMethods` with an
empty policy returns, without error or warning, the methods of the services
other than the two reflection services, service by service in the order
listed and in each service's own method order. -/
theorem getMethods_empty_policy (source : DescriptorSource) (services : List String)
    (sdOf : String → ServiceDescriptor)
    (hlist : source.ListServices = .ok services)
    (hres : ∀ s ∈ services, s ≠ "grpc.reflection.v1alpha.ServerReflection" →
      s ≠ "grpc.reflection.v1.ServerReflection" →
      source.FindSymbol s = .ok (.service (sdOf s))) :
    getMethods source []
      = ⟨.ok ((services.filter (fun s =>
            decide (s ≠ "grpc.reflection.v1alpha.ServerReflection" ∧
              s ≠ "grpc.reflection.v1.ServerReflection"))).flatMap
            (fun s => (sdOf s).methods)), []⟩ := by
  have hres1 : ∀ s ∈ services, isReflectionService s = false →
      source.FindSymbol s = .ok (.service (sdOf s)) := by
    intro s hs hr
    obtain ⟨h1, h2⟩ := (isReflectionService_eq_false s).mp hr
    exact hres s hs h1 h2
  have hfilter : services.filter (fun s => !isReflectionService s)
      = services.filter (fun s =>
          decide (s ≠ "grpc.reflection.v1alpha.ServerReflection" ∧
            s ≠ "grpc.reflection.v1.ServerReflection")) := by
    apply List.filter_congr
    intro s _
    cases hr : isReflectionService s with
    | false =>
      have h := (isReflectionService_eq_false s).mp hr
      simp [h.1, h.2]
    | true =>
      have h : ¬ (s ≠ "grpc.reflection.v1alpha.ServerReflection" ∧
          s ≠ "grpc.reflection.v1.ServerReflection") := by
        intro h
        rw [(isReflectionService_eq_false s).mpr h] at hr
        cases hr
      simp only [Bool.not_true]
      exact (decide_eq_false h).symm
  unfold getMethods
  rw [hlist]
  simp only
  rw [serviceLoop_empty_policy source sdOf services [] [] hres1, hfilter, List.nil_append]

/-- C2, at a server that lists its reflection service between two others. -/
theorem getMethods_empty_policy_witness :
    getMethods reflectingSource []
      = ⟨.ok [⟨"pkg.Greeter", "SayHello"⟩, ⟨"pkg.Greeter", "SayBye"⟩,
          ⟨"pkg.Admin", "Shutdown"⟩], []⟩ :=
  getMethods_empty_policy reflectingSource
    ["pkg.Greeter", "grpc.reflection.v1.ServerReflection", "pkg.Admin"] exampleDescriptor rfl
    (by decide)

/-- C3, as stated, fails: with explicit names the server lacks under both
`pkg.Greeter` and `pkg.Admin`, the error names the unmatched method of
`pkg.Greeter`, the first of the two the server lists, and not that of
`pkg.Admin`. -/
theorem getMethods_reports_first_offending_service_only :
    getMethods exampleSource [("pkg.Greeter", ⟨false, ["Nope"]⟩), ("pkg.Admin", ⟨false, ["Gone"]⟩)]
        = ⟨.error ⟨"configured methods not found: pkg.Greeter/Nope"⟩, []⟩ ∧
      ¬ ("pkg.Admin/Gone".data <:+: "configured methods not found: pkg.Greeter/Nope".data) := by
  decide

/-- C3, amended: let `svc` be the first service in server order, outside the
reflection services, whose policy entry lists a name the service does not
have, every service listed before it resolving and having all the names of
its entry.  Then `getMethods` fails, returns no methods, and its message is
"configured methods not found: " followed by the names of that entry which
are no method of `svc`, each as `svc/name`, in increasing order and joined by
", ". -/
theorem getMethods_unmatched_methods (source : DescriptorSource) (policy : Configs)
    (sdOf : String → ServiceDescriptor) (pre post : List String) (svc : String)
    (sd : ServiceDescriptor) (cfg : svcConfig)
    (hlist : source.ListServices = .ok (pre ++ svc :: post))
    (hres : ∀ s ∈ pre, isReflectionService s = false →
      source.FindSymbol s = .ok (.service (sdOf s)))
    (hmatch : ∀ s ∈ pre, isReflectionService s = false → ∀ c, mapLookup policy s = some c →
      ∀ m ∈ c.includeMethods, m ∈ (sdOf s).methods.map MethodDescriptor.name)
    (hfirst : svc ∉ pre)
    (hrefl : isReflectionService svc = false)
    (hfind : source.FindSymbol svc = .ok (.service sd))
    (hcfg : mapLookup policy svc = some cfg)
    (hun : ∃ m ∈ cfg.includeMethods, m ∉ sd.methods.map MethodDescriptor.name) :
    ∃ names : List String,
      names.Sorted stringsLE ∧
      names.Perm ((cfg.includeMethods.filter
        (fun m => decide (m ∉ sd.methods.map MethodDescriptor.name))).map
        (fun m => svc ++ "/" ++ m)) ∧
      names = sortStrings ((cfg.includeMethods.filter
        (fun m => decide (m ∉ sd.methods.map MethodDescriptor.name))).map
        (fun m => svc ++ "/" ++ m)) ∧
      (getMethods source policy).result
        = .error ⟨"configured methods not found: " ++ joinComma names⟩ := by
  refine ⟨_, sortStrings_sorted _, sortStrings_perm _, rfl, ?_⟩
  unfold getMethods
  rw [hlist]
  exact serviceLoop_unmatched source sdOf svc sd cfg post hrefl hfind hun pre policy [] []
    hres hmatch hfirst hcfg

/-- C3, amended, at a policy whose entry for `pkg.Greeter` is fully matched
and whose entry for `pkg.Admin` lists two names `pkg.Admin` does not have. -/
theorem getMethods_unmatched_methods_witness :
    (getMethods exampleSource
        [("pkg.Admin", ⟨false, ["Shutdown", "Zap", "Gone"]⟩),
          ("pkg.Greeter", ⟨false, ["SayBye"]⟩)]).result
      = .error ⟨"configured methods not found: pkg.Admin/Gone, pkg.Admin/Zap"⟩ := by
  obtain ⟨names, _, _, hnames, hresult⟩ := getMethods_unmatched_methods exampleSource
    [("pkg.Admin", ⟨false, ["Shutdown", "Zap", "Gone"]⟩), ("pkg.Greeter", ⟨false, ["SayBye"]⟩)]
    exampleDescriptor ["pkg.Greeter"] [] "pkg.Admin" admin ⟨false, ["Shutdown", "Zap", "Gone"]⟩
    rfl (by decide) (by decide) (by decide) (by decide) (by decide) (by decide)
    ⟨"Zap", by decide, by decide⟩
  rw [hresult, hnames]
  decide

/-- C4: when the policy names a service the server does not list, every
listed service outside the reflection services resolves to a service
descriptor, and every entry of a listed service lists only names that service
has, `getMethods` fails, returns no methods, and its message is "configured
services not found: " followed by the policy's service names that are not
among the listed services outside the reflection services, in increasing
order and joined by ", ". -/
theorem getMethods_unadvertised_services (source : DescriptorSource) (policy : Configs)
    (services : List String) (sdOf : String → ServiceDescriptor)
    (hlist : source.ListServices = .ok services)
    (hres : ∀ s ∈ services, isReflectionService s = false →
      source.FindSymbol s = .ok (.service (sdOf s)))
    (hmatch : ∀ s ∈ services, isReflectionService s = false →
      ∀ c, mapLookup policy s = some c →
      ∀ m ∈ c.includeMethods, m ∈ (sdOf s).methods.map MethodDescriptor.name)
    (hmissing : ∃ u ∈ policy.map Prod.fst, u ∉ services) :
    ∃ names : List String,
      names.Sorted stringsLE ∧
      names.Perm ((policy.map Prod.fst).filter
        (fun k => !(decide (k ∈ services) && !isReflectionService k))) ∧
      names = sortStrings ((policy.map Prod.fst).filter
        (fun k => !(decide (k ∈ services) && !isReflectionService k))) ∧
      (getMethods source policy).result
        = .error ⟨"configured services not found: " ++ joinComma names⟩ := by
  refine ⟨_, sortStrings_sorted _, sortStrings_perm _, rfl, ?_⟩
  unfold getMethods
  rw [hlist]
  exact serviceLoop_unadvertised source sdOf services policy [] [] hres hmatch hmissing

/-- C4, at a policy that names two services the example server does not
list, beside one it lists. -/
theorem getMethods_unadvertised_services_witness :
    (getMethods exampleSource
        [("pkg.Missing", ⟨true, []⟩), ("pkg.Greeter", ⟨true, ["SayBye"]⟩),
          ("pkg.Absent", ⟨false, ["Run"]⟩)]).result
      = .error ⟨"configured services not found: pkg.Absent, pkg.Missing"⟩ := by
  obtain ⟨names, _, _, hnames, hresult⟩ := getMethods_unadvertised_services exampleSource
    [("pkg.Missing", ⟨true, []⟩), ("pkg.Greeter", ⟨true, ["SayBye"]⟩),
      ("pkg.Absent", ⟨false, ["Run"]⟩)]
    ["pkg.Greeter", "pkg.Admin"] exampleDescriptor rfl (by decide) (by decide)
    ⟨"pkg.Missing", by decide, by decide⟩
  rw [hresult, hnames]
  decide

/-- The methods of the example server name the service that lists them. -/
theorem exampleSource_parent :
    ∀ s ∈ ["pkg.Greeter", "pkg.Admin"], ∀ sd,
      exampleSource.FindSymbol s = .ok (.service sd) → ∀ md ∈ sd.methods, md.service = s := by
  intro s hs sd hfind md hmd
  simp only [List.mem_cons, List.mem_singleton, List.not_mem_nil, or_false] at hs
  rcases hs with h | h
  · subst h
    have hsd : sd = greeter := by
      have h1 : exampleSource.FindSymbol "pkg.Greeter" = .ok (.service greeter) := by decide
      rw [h1] at hfind
      cases hfind
      rfl
    subst hsd
    revert md
    decide
  · subst h
    have hsd : sd = admin := by
      have h1 : exampleSource.FindSymbol "pkg.Admin" = .ok (.service admin) := by decide
      rw [h1] at hfind
      cases hfind
      rfl
    subst hsd
    revert md
    decide

/-- Every service of the example server resolves. -/
theorem exampleSource_resolves (policy : Configs)
    (hgreeter : ∀ c, mapLookup policy "pkg.Greeter" = some c →
      ∀ m ∈ c.includeMethods, m ∈ greeter.methods.map MethodDescriptor.name)
    (hadmin : ∀ c, mapLookup policy "pkg.Admin" = some c →
      ∀ m ∈ c.includeMethods, m ∈ admin.methods.map MethodDescriptor.name) :
    ∀ s ∈ ["pkg.Greeter", "pkg.Admin"], isReflectionService s = false →
      ∃ sd, exampleSource.FindSymbol s = .ok (.service sd) ∧
        ∀ c, mapLookup policy s = some c →
          ∀ m ∈ c.includeMethods, m ∈ sd.methods.map MethodDescriptor.name := by
  intro s hs _
  simp only [List.mem_cons, List.mem_singleton, List.not_mem_nil, or_false] at hs
  rcases hs with h | h
  · subst h
    exact ⟨greeter, by decide, hgreeter⟩
  · subst h
    exact ⟨admin, by decide, hadmin⟩

/-! ## `getMethods`: entries with explicit methods -/

/-- C5: let the server list its services without repetition, each method
naming the service that lists it, and let `svc`, one of them outside the
reflection services, resolve to `sd` with pairwise distinct method names and
have the policy entry `cfg`, which does not include the whole service and
lists only names `sd` has.  Then whenever `getMethods` returns methods, those
of `svc` among them are exactly the methods of `sd` whose names `cfg` lists,
in the order of `sd`, each once in the whole result; `getMethods` does return
methods when nothing else in the run fails; and the turn of the loop for `svc`
appends those methods, leaves the explicit set of the entry empty, writes no
warning and goes on to the next service without an error. -/
theorem getMethods_explicit_methods_selected (source : DescriptorSource) (policy : Configs)
    (services : List String) (svc : String) (sd : ServiceDescriptor) (cfg : svcConfig)
    (hlist : source.ListServices = .ok services)
    (hnodup : services.Nodup)
    (hsvc : svc ∈ services)
    (hparent : ∀ s ∈ services, ∀ sd1, source.FindSymbol s = .ok (.service sd1) →
      ∀ md ∈ sd1.methods, md.service = s)
    (hrefl : isReflectionService svc = false)
    (hfind : source.FindSymbol svc = .ok (.service sd))
    (hcfg : mapLookup policy svc = some cfg)
    (hexplicit : cfg.includeService = false)
    (hexist : ∀ m ∈ cfg.includeMethods, m ∈ sd.methods.map MethodDescriptor.name)
    (hdistinct : (sd.methods.map MethodDescriptor.name).Nodup) :
    (∀ descs, (getMethods source policy).result = .ok descs →
        descs.filter (fun md => decide (md.service = svc))
          = sd.methods.filter (fun md => decide (md.name ∈ cfg.includeMethods)) ∧
        ∀ md ∈ sd.methods, md.name ∈ cfg.includeMethods → descs.count md = 1) ∧
      ((∀ s ∈ services, isReflectionService s = false →
          ∃ sd1, source.FindSymbol s = .ok (.service sd1) ∧
            ∀ c, mapLookup policy s = some c →
              ∀ m ∈ c.includeMethods, m ∈ sd1.methods.map MethodDescriptor.name) →
        (∀ k ∈ policy.map Prod.fst, isReflectionService k = false ∧ k ∈ services) →
        ∃ descs, (getMethods source policy).result = .ok descs) ∧
      (∀ d e, getMethods.methodLoop svc (some cfg) sd.methods d e
        = (some ⟨false, []⟩,
            d ++ sd.methods.filter (fun md => decide (md.name ∈ cfg.includeMethods)), e)) ∧
      (∀ configs d e rest, mapLookup configs svc = some cfg →
        getMethods.serviceLoop source (svc :: rest) configs d e
          = getMethods.serviceLoop source rest (mapDelete configs svc)
              (d ++ sd.methods.filter (fun md => decide (md.name ∈ cfg.includeMethods))) e) := by
  have hloop : ∀ d e, getMethods.methodLoop svc (some cfg) sd.methods d e
      = (some ⟨cfg.includeService, []⟩,
          d ++ sd.methods.filter (fun md => decide (md.name ∈ cfg.includeMethods)), e) := by
    intro d e
    rw [methodLoop_nodup svc sd.methods cfg d e hdistinct, filter_unmatched_eq_nil _ _ hexist]
    simp [hexplicit]
  have hselected : ∀ md ∈ sd.methods.filter (fun md => decide (md.name ∈ cfg.includeMethods)),
      md.service = svc :=
    fun md hmd => hparent svc hsvc sd hfind md (List.mem_filter.mp hmd).1
  refine ⟨?_, ?_, ?_, ?_⟩
  · intro descs hres
    obtain ⟨pre, post, hsplit⟩ := List.append_of_mem hsvc
    rw [hsplit] at hnodup hparent hlist
    have hmid := (List.nodup_cons.mp (List.nodup_middle.mp hnodup)).1
    have hpre : svc ∉ pre := fun h => hmid (List.mem_append_left _ h)
    have hpost : svc ∉ post := fun h => hmid (List.mem_append_right _ h)
    unfold getMethods at hres
    rw [hlist] at hres
    have hfilter := serviceLoop_filter_of_mem source svc sd cfg _ post hrefl hfind
      (fun d e => ⟨e, hloop d e⟩) hselected hpost
      (fun s hs => hparent s (List.mem_append_right _ (List.mem_cons_of_mem _ hs)))
      pre policy [] [] hpre (fun s hs => hparent s (List.mem_append_left _ hs)) hcfg descs hres
    rw [List.filter_nil, List.nil_append] at hfilter
    refine ⟨hfilter, ?_⟩
    intro md hmd hname
    have hin : md ∈ sd.methods.filter (fun md => decide (md.name ∈ cfg.includeMethods)) :=
      List.mem_filter.mpr ⟨hmd, by simpa using hname⟩
    have hcount : (descs.filter (fun md => decide (md.service = svc))).count md
        = descs.count md :=
      List.count_filter (by simpa using hselected md hin)
    rw [← hcount, hfilter]
    exact List.count_eq_one_of_mem ((List.Nodup.of_map _ hdistinct).filter _) hin
  · intro hok hkeys
    unfold getMethods
    rw [hlist]
    exact serviceLoop_succeeds source services policy [] [] hok hkeys
  · intro d e
    rw [hloop d e, hexplicit]
  · intro configs d e rest hcfg1
    rw [serviceLoop_entry source svc rest configs d e sd cfg hrefl hfind hcfg1 [] _ _
      (hloop d e)]
    simp

/-- C5, at the policy that lists `SayBye` of `pkg.Greeter` and includes the
whole of `pkg.Admin`: the run returns `SayBye` as the one method of
`pkg.Greeter`. -/
theorem getMethods_explicit_methods_selected_witness :
    (getMethods exampleSource
        [("pkg.Greeter", ⟨false, ["SayBye"]⟩), ("pkg.Admin", ⟨true, []⟩)]).result
        = .ok [⟨"pkg.Greeter", "SayBye"⟩, ⟨"pkg.Admin", "Shutdown"⟩] ∧
      ([⟨"pkg.Greeter", "SayBye"⟩, ⟨"pkg.Admin", "Shutdown"⟩] : List MethodDescriptor).filter
          (fun md => decide (md.service = "pkg.Greeter"))
        = greeter.methods.filter (fun md => decide (md.name ∈ ["SayBye"])) ∧
      ∃ descs, (getMethods exampleSource
        [("pkg.Greeter", ⟨false, ["SayBye"]⟩), ("pkg.Admin", ⟨true, []⟩)]).result
        = .ok descs := by
  have h := getMethods_explicit_methods_selected exampleSource
    [("pkg.Greeter", ⟨false, ["SayBye"]⟩), ("pkg.Admin", ⟨true, []⟩)]
    ["pkg.Greeter", "pkg.Admin"] "pkg.Greeter" greeter ⟨false, ["SayBye"]⟩
    rfl (by decide) (by decide) exampleSource_parent (by decide) (by decide) (by decide) rfl
    (by decide) (by decide)
  refine ⟨by decide, (h.1 _ (by decide)).1, h.2.1 ?_ (by decide)⟩
  exact exampleSource_resolves _ (by decide) (by decide)

/-! ## `getMethods`: a method listed under a wholly included service -/

/-- C6, as stated, fails: with an entry that includes the whole of
`pkg.Greeter` and lists its method `SayHello`, `getMethods` still returns an
error when the entry also lists a name `pkg.Greeter` does not have (the
redundant `SayHello` has produced its warning by then), when the policy names
a service the server does not list, when the entry of another service lists
a name that service does not have, and when another listed service does not
resolve. -/
theorem getMethods_redundant_entry_can_fail :
    getMethods exampleSource [("pkg.Greeter", ⟨true, ["SayHello", "Nope"]⟩)]
        = ⟨.error ⟨"configured methods not found: pkg.Greeter/Nope"⟩,
            ["Warning: Service pkg.Greeter already configured, so -method SayHello is unnecessary\n"]⟩ ∧
      (getMethods exampleSource
          [("pkg.Greeter", ⟨true, ["SayHello"]⟩), ("pkg.Missing", ⟨true, []⟩)]).result
        = .error ⟨"configured services not found: pkg.Missing"⟩ ∧
      (getMethods exampleSource
          [("pkg.Greeter", ⟨true, ["SayHello"]⟩), ("pkg.Admin", ⟨false, ["Gone"]⟩)]).result
        = .error ⟨"configured methods not found: pkg.Admin/Gone"⟩ ∧
      (getMethods unresolvedSource
          [("pkg.Greeter", ⟨true, ["SayHello"]⟩), ("pkg.Admin", ⟨true, []⟩)]).result
        = .error ⟨"Symbol not found: pkg.Admin"⟩ := by
  decide

/-- C6, amended: let the server list its services without repetition, each
method naming the service that lists it, and let nothing else in the run
fail: every listed service outside the reflection services resolves to a
service descriptor, and every policy entry names such a service and lists
only names that service has.  Let `svc`, one of these services, resolve to
`sd` with pairwise distinct method names and have the entry `cfg`, which
includes the whole service and lists `m`.  Then `getMethods` returns no error,
the methods of `svc` in its result are all the methods of `sd` in the order of
`sd`, the method `m` of `svc` occurs exactly once in the result, and the
warning for `m` is on standard error; the turn of the loop for `svc` writes
one warning for each listed method and goes on without an error. -/
theorem getMethods_redundant_method_entry (source : DescriptorSource) (policy : Configs)
    (services : List String) (svc : String) (sd : ServiceDescriptor) (cfg : svcConfig)
    (m : String)
    (hlist : source.ListServices = .ok services)
    (hnodup : services.Nodup)
    (hsvc : svc ∈ services)
    (hparent : ∀ s ∈ services, ∀ sd1, source.FindSymbol s = .ok (.service sd1) →
      ∀ md ∈ sd1.methods, md.service = s)
    (hok : ∀ s ∈ services, isReflectionService s = false →
      ∃ sd1, source.FindSymbol s = .ok (.service sd1) ∧
        ∀ c, mapLookup policy s = some c →
          ∀ n ∈ c.includeMethods, n ∈ sd1.methods.map MethodDescriptor.name)
    (hkeys : ∀ k ∈ policy.map Prod.fst, isReflectionService k = false ∧ k ∈ services)
    (hrefl : isReflectionService svc = false)
    (hfind : source.FindSymbol svc = .ok (.service sd))
    (hcfg : mapLookup policy svc = some cfg)
    (hwhole : cfg.includeService = true)
    (hm : m ∈ cfg.includeMethods)
    (hdistinct : (sd.methods.map MethodDescriptor.name).Nodup) :
    (∃ descs, (getMethods source policy).result = .ok descs ∧
        descs.filter (fun md => decide (md.service = svc)) = sd.methods ∧
        descs.count ⟨svc, m⟩ = 1) ∧
      redundantWarning svc m ∈ (getMethods source policy).stderr ∧
      (∀ configs d e rest, mapLookup configs svc = some cfg →
        getMethods.serviceLoop source (svc :: rest) configs d e
          = getMethods.serviceLoop source rest (mapDelete configs svc) (d ++ sd.methods)
              (e ++ (sd.methods.filter
                (fun md => decide (md.name ∈ cfg.includeMethods))).map
                (fun md => redundantWarning svc md.name))) := by
  have hexist : ∀ n ∈ cfg.includeMethods, n ∈ sd.methods.map MethodDescriptor.name := by
    obtain ⟨sd1, hfind1, hmatch⟩ := hok svc hsvc hrefl
    rw [hfind] at hfind1
    cases hfind1
    exact hmatch cfg hcfg
  have hloop : ∀ d e, getMethods.methodLoop svc (some cfg) sd.methods d e
      = (some ⟨cfg.includeService, []⟩, d ++ sd.methods,
          e ++ (sd.methods.filter
            (fun md => decide (md.name ∈ cfg.includeMethods))).map
            (fun md => redundantWarning svc md.name)) := by
    intro d e
    rw [methodLoop_nodup svc sd.methods cfg d e hdistinct, filter_unmatched_eq_nil _ _ hexist]
    simp [hwhole, redundantWarning]
  have hwarned : redundantWarning svc m ∈ (sd.methods.filter
      (fun md => decide (md.name ∈ cfg.includeMethods))).map
      (fun md => redundantWarning svc md.name) := by
    obtain ⟨md, hmd, hname⟩ := List.mem_map.mp (hexist m hm)
    refine List.mem_map.mpr ⟨md, ?_, by rw [hname]⟩
    rw [List.mem_filter]
    exact ⟨hmd, by simpa [hname] using hm⟩
  have hselected : ∀ md ∈ sd.methods, md.service = svc :=
    fun md hmd => hparent svc hsvc sd hfind md hmd
  obtain ⟨pre, post, hsplit⟩ := List.append_of_mem hsvc
  have hmid : svc ∉ pre ++ post := by
    rw [hsplit] at hnodup
    exact (List.nodup_cons.mp (List.nodup_middle.mp hnodup)).1
  have hpre : svc ∉ pre := fun h => hmid (List.mem_append_left _ h)
  have hpost : svc ∉ post := fun h => hmid (List.mem_append_right _ h)
  have hrun : getMethods source policy
      = getMethods.serviceLoop source (pre ++ svc :: post) policy [] [] := by
    unfold getMethods
    rw [hlist, hsplit]
  refine ⟨?_, ?_, ?_⟩
  · obtain ⟨descs, hres⟩ : ∃ descs, (getMethods source policy).result = .ok descs := by
      unfold getMethods
      rw [hlist]
      exact serviceLoop_succeeds source services policy [] [] hok hkeys
    have hres1 := hres
    rw [hrun] at hres1
    have hfilter := serviceLoop_filter_of_mem source svc sd cfg sd.methods post hrefl hfind
      (fun d e => ⟨_, hloop d e⟩) hselected hpost
      (fun s hs => hparent s (hsplit ▸ List.mem_append_right _ (List.mem_cons_of_mem _ hs)))
      pre policy [] [] hpre (fun s hs => hparent s (hsplit ▸ List.mem_append_left _ hs)) hcfg
      descs hres1
    rw [List.filter_nil, List.nil_append] at hfilter
    refine ⟨descs, hres, hfilter, ?_⟩
    obtain ⟨md, hmd, hname⟩ := List.mem_map.mp (hexist m hm)
    have hmdeq : md = ⟨svc, m⟩ := by
      have h1 := hselected md hmd
      cases md
      simp only at h1 hname
      rw [h1, hname]
    rw [hmdeq] at hmd
    have hcount : (descs.filter (fun md => decide (md.service = svc))).count ⟨svc, m⟩
        = descs.count ⟨svc, m⟩ :=
      List.count_filter (by simp)
    rw [← hcount, hfilter]
    exact List.count_eq_one_of_mem (List.Nodup.of_map _ hdistinct) hmd
  · rw [hrun]
    refine serviceLoop_writes source svc sd cfg _ post hrefl hfind
      (fun d e => ⟨_, _, hloop d e, List.mem_append_right _ hwarned⟩) pre policy [] [] ?_ hpre
      hcfg
    intro s hs hr
    exact hok s (hsplit ▸ List.mem_append_left _ hs) hr
  · intro configs d e rest hcfg1
    rw [serviceLoop_entry source svc rest configs d e sd cfg hrefl hfind hcfg1 [] _ _
      (hloop d e)]
    simp

/-- C6, amended, at the policy that includes the whole of `pkg.Greeter`,
lists its `SayHello`, and includes the whole of `pkg.Admin`. -/
theorem getMethods_redundant_method_entry_witness :
    getMethods exampleSource
        [("pkg.Greeter", ⟨true, ["SayHello"]⟩), ("pkg.Admin", ⟨true, []⟩)]
        = ⟨.ok [⟨"pkg.Greeter", "SayHello"⟩, ⟨"pkg.Greeter", "SayBye"⟩,
            ⟨"pkg.Admin", "Shutdown"⟩],
          ["Warning: Service pkg.Greeter already configured, so -method SayHello is unnecessary\n"]⟩ ∧
      (∃ descs, (getMethods exampleSource
          [("pkg.Greeter", ⟨true, ["SayHello"]⟩), ("pkg.Admin", ⟨true, []⟩)]).result
          = .ok descs ∧
        descs.filter (fun md => decide (md.service = "pkg.Greeter")) = greeter.methods ∧
        descs.count ⟨"pkg.Greeter", "SayHello"⟩ = 1) ∧
      redundantWarning "pkg.Greeter" "SayHello" ∈ (getMethods exampleSource
        [("pkg.Greeter", ⟨true, ["SayHello"]⟩), ("pkg.Admin", ⟨true, []⟩)]).stderr := by
  have h := getMethods_redundant_method_entry exampleSource
    [("pkg.Greeter", ⟨true, ["SayHello"]⟩), ("pkg.Admin", ⟨true, []⟩)]
    ["pkg.Greeter", "pkg.Admin"] "pkg.Greeter" greeter ⟨true, ["SayHello"]⟩ "SayHello"
    rfl (by decide) (by decide) exampleSource_parent
    (exampleSource_resolves _ (by decide) (by decide)) (by decide) (by decide) (by decide)
    (by decide) rfl (by decide) (by decide)
  exact ⟨by decide, h.1, h.2.1⟩

/-! ## `NewGrpcuiProxyOption`: properties -/

/-- C8: `NewGrpcuiProxyOption` does not close the connection it opened when a
later step fails.  With no connection open before the call, connection 7 is
still open when method selection fails (the server has no reflection
support) and when the collection of file descriptors fails, and `grpcuiHandler`,
which gets no handle to close, answers with the error and leaves it open. -/
theorem NewGrpcuiProxyOption_leaves_connection_open_on_error :
    NewGrpcuiProxyOption noReflectionWorld "svc.internal:443" []
        = ⟨.error ⟨"server does not support the reflection API"⟩, [7], []⟩ ∧
      NewGrpcuiProxyOption brokenFilesWorld "svc.internal:443" []
        = ⟨.error ⟨"File not found: pkg/greeter.proto"⟩, [7], []⟩ ∧
      grpcuiHandler noReflectionWorld "svc.internal:443" []
        = ⟨400, "index.html", some "server does not support the reflection API", [7]⟩ ∧
      grpcuiHandler brokenFilesWorld "svc.internal:443" []
        = ⟨400, "index.html", some "File not found: pkg/greeter.proto", [7]⟩ := by
  decide

/-- C9, as stated, fails: where the fail-fast dial reports a refused connect
and the dial without fail-fast would end connected, `NewGrpcuiProxyOption`
returns the refusal. -/
theorem NewGrpcuiProxyOption_not_through_tracking_dial :
    dial flakyWorld "tcp" "svc.internal:443" none false = .ok 7 ∧
      NewGrpcuiProxyOption flakyWorld "svc.internal:443" []
        = ⟨.error ⟨"connection refused"⟩, [], []⟩ := by
  decide

/-- C9, amended: `NewGrpcuiProxyOption` establishes its connection through
the fail-fast path of `dial` (network "tcp", nil credentials, `failFast =
true`), which is `grpcurl.BlockingDial` unmodified: an error of
`BlockingDial` is returned as it is, a connection of `BlockingDial` is the one
opened and held by the handle, and what `grpc.DialContext` would do, the
tracking wrappers and the arbitration among their errors play no part, for
every endpoint. -/
theorem NewGrpcuiProxyOption_dials_fail_fast (w : World) (endpoint : String)
    (openConns : List ClientConn)
    (otherDialContext : String → String → Option TransportCredentials → DialContextRun) :
    dial w "tcp" endpoint none true = w.BlockingDial "tcp" endpoint none ∧
      NewGrpcuiProxyOption
          ⟨w.BlockingDial, otherDialContext, w.DescriptorSourceFromServer, w.GetAllFiles⟩
          endpoint openConns
        = NewGrpcuiProxyOption w endpoint openConns ∧
      (match w.BlockingDial "tcp" endpoint none with
        | .error err => NewGrpcuiProxyOption w endpoint openConns = ⟨.error err, openConns, []⟩
        | .ok cc =>
          (NewGrpcuiProxyOption w endpoint openConns).openConns = cc :: openConns ∧
          ∀ handle, (NewGrpcuiProxyOption w endpoint openConns).result = .ok handle →
            handle.cc = cc ∧ handle.endpoint = endpoint) := by
  refine ⟨by simp [dial], by simp [NewGrpcuiProxyOption, dial], ?_⟩
  cases hdial : w.BlockingDial "tcp" endpoint none with
  | error err => simp [NewGrpcuiProxyOption, dial, hdial]
  | ok cc =>
    simp only [NewGrpcuiProxyOption, dial, hdial, if_true]
    cases hget : (getMethods (w.DescriptorSourceFromServer cc) []).result with
    | error e => simp
    | ok methods =>
      cases hfiles : w.GetAllFiles cc with
      | error e => simp
      | ok files =>
        simp only [true_and]
        intro handle hh
        cases hh
        exact ⟨rfl, rfl⟩

/-- C9, amended, at the world whose fail-fast dial reports a refused connect:
the refusal is what `NewGrpcuiProxyOption` returns, whatever `grpc.DialContext`
would do. -/
theorem NewGrpcuiProxyOption_dials_fail_fast_witness :
    NewGrpcuiProxyOption flakyWorld "svc.internal:443" []
        = NewGrpcuiProxyOption badCertificateWorld "svc.internal:443" [] ∧
      dial flakyWorld "tcp" "svc.internal:443" none true = .error ⟨"connection refused"⟩ :=
  ⟨(NewGrpcuiProxyOption_dials_fail_fast flakyWorld "svc.internal:443" []
      badCertificateWorld.DialContext).2.1.symm,
    (NewGrpcuiProxyOption_dials_fail_fast flakyWorld "svc.internal:443" []
      flakyWorld.DialContext).1⟩

end GrpcuiProxy
